import Mathlib

/-!
A verification development for the culet gemstone ray tracer.

The geometry kernel (`Vec3`, `Ray`, `Triangle`, `BoundingBox`, `Mesh`,
`Scene`) is embedded generically over a linear ordered field `K`,
mirroring `culet_lib/src/{ray,mesh,material}.rs`, `src/scene.rs` and
`src/hittable.rs`.  Machine `f32` values are idealised as elements of
`K` (instantiated at `ℚ` for decidable evaluations and at `ℝ` for the
transcendental light-transport code).  The slab test in
`BoundingBox::hit_point` relies on IEEE-754 division by zero producing
infinities and on the NaN-ignoring behaviour of Rust's `f32::min` /
`f32::max`, so the arithmetic it performs is modelled faithfully on an
extended type `EF K` with `nan`, `+inf` and `-inf` (signed zero is not
modelled; a zero f32 direction component is mapped to `0 : K`, i.e. to
the `+0.0` case).

The BVH builder of `culet/src/bvh.rs` is embedded over `ℚ` with all
array accesses checked (`Except` models the Rust panics), and the
scheduling skeleton of `RenderOptions::render_streaming` is embedded at
the level of its pixel-index bookkeeping.
-/

/-- 3-component vector, mirroring `glam::Vec3` over an abstract scalar. -/
structure Vec3 (K : Type) where
  x : K
  y : K
  z : K
deriving DecidableEq, Repr

namespace Vec3

variable {K : Type} [LinearOrderedField K]

def add (a b : Vec3 K) : Vec3 K := ⟨a.x + b.x, a.y + b.y, a.z + b.z⟩

def sub (a b : Vec3 K) : Vec3 K := ⟨a.x - b.x, a.y - b.y, a.z - b.z⟩

def neg (a : Vec3 K) : Vec3 K := ⟨-a.x, -a.y, -a.z⟩

/-- Componentwise product (`glam` multiplies `Vec3 * Vec3` componentwise). -/
def cmul (a b : Vec3 K) : Vec3 K := ⟨a.x * b.x, a.y * b.y, a.z * b.z⟩

/-- Scalar multiple (`f32 * Vec3` in glam). -/
def smul (k : K) (a : Vec3 K) : Vec3 K := ⟨k * a.x, k * a.y, k * a.z⟩

instance : Add (Vec3 K) := ⟨add⟩

instance : Sub (Vec3 K) := ⟨sub⟩

instance : Neg (Vec3 K) := ⟨neg⟩

instance : Mul (Vec3 K) := ⟨cmul⟩

instance : SMul K (Vec3 K) := ⟨smul⟩

def dot (a b : Vec3 K) : K := a.x * b.x + a.y * b.y + a.z * b.z

def cross (a b : Vec3 K) : Vec3 K :=
  ⟨a.y * b.z - a.z * b.y, a.z * b.x - a.x * b.z, a.x * b.y - a.y * b.x⟩

/-- `Vec3::splat` -/
def splat (k : K) : Vec3 K := ⟨k, k, k⟩

/-- Component selector mirroring `glam`'s `Index<usize> for Vec3`
(axes 0, 1, 2; the embedding only ever uses indices below 3). -/
def comp (a : Vec3 K) : ℕ → K
  | 1 => a.y
  | 2 => a.z
  | _ => a.x

@[simp] theorem add_x (a b : Vec3 K) : (a + b).x = a.x + b.x := rfl

@[simp] theorem add_y (a b : Vec3 K) : (a + b).y = a.y + b.y := rfl

@[simp] theorem add_z (a b : Vec3 K) : (a + b).z = a.z + b.z := rfl

@[simp] theorem sub_x (a b : Vec3 K) : (a - b).x = a.x - b.x := rfl

@[simp] theorem sub_y (a b : Vec3 K) : (a - b).y = a.y - b.y := rfl

@[simp] theorem sub_z (a b : Vec3 K) : (a - b).z = a.z - b.z := rfl

@[simp] theorem neg_x (a : Vec3 K) : (-a).x = -a.x := rfl

@[simp] theorem neg_y (a : Vec3 K) : (-a).y = -a.y := rfl

@[simp] theorem neg_z (a : Vec3 K) : (-a).z = -a.z := rfl

@[simp] theorem cmul_x (a b : Vec3 K) : (a * b).x = a.x * b.x := rfl

@[simp] theorem cmul_y (a b : Vec3 K) : (a * b).y = a.y * b.y := rfl

@[simp] theorem cmul_z (a b : Vec3 K) : (a * b).z = a.z * b.z := rfl

@[simp] theorem smul_x (k : K) (a : Vec3 K) : (k • a).x = k * a.x := rfl

@[simp] theorem smul_y (k : K) (a : Vec3 K) : (k • a).y = k * a.y := rfl

@[simp] theorem smul_z (k : K) (a : Vec3 K) : (k • a).z = k * a.z := rfl

@[simp] theorem mk_x (a b c : K) : (Vec3.mk a b c).x = a := rfl

@[simp] theorem mk_y (a b c : K) : (Vec3.mk a b c).y = b := rfl

@[simp] theorem mk_z (a b c : K) : (Vec3.mk a b c).z = c := rfl

theorem ext_iff {a b : Vec3 K} : a = b ↔ a.x = b.x ∧ a.y = b.y ∧ a.z = b.z := by
  constructor
  · rintro rfl; exact ⟨rfl, rfl, rfl⟩
  · rcases a with ⟨ax, ay, az⟩
    rcases b with ⟨bx, by', bz⟩
    rintro ⟨h1, h2, h3⟩
    simp_all

end Vec3

/-- Extended scalar mirroring the IEEE-754 behaviour the slab test relies
on: finite values plus `+inf`, `-inf` and `nan`.  Signed zero is not
modelled (a zero f32 maps to `fin 0`, the `+0.0` case). -/
inductive EF (K : Type) where
  | nan : EF K
  | pinf : EF K
  | ninf : EF K
  | fin (val : K) : EF K
deriving DecidableEq, Repr

namespace EF

variable {K : Type} [LinearOrderedField K]

/-- IEEE division. `x / 0` with `x > 0` gives `+inf` (positive zero). -/
def div : EF K → EF K → EF K
  | nan, _ => nan
  | _, nan => nan
  | fin a, fin b =>
      if b = 0 then (if a > 0 then pinf else if a < 0 then ninf else nan)
      else fin (a / b)
  | fin _, pinf => fin 0
  | fin _, ninf => fin 0
  | pinf, fin b => if b < 0 then ninf else pinf
  | ninf, fin b => if b < 0 then pinf else ninf
  | pinf, pinf => nan
  | pinf, ninf => nan
  | ninf, pinf => nan
  | ninf, ninf => nan

/-- IEEE multiplication (`0 * inf = nan`). -/
def mul : EF K → EF K → EF K
  | nan, _ => nan
  | _, nan => nan
  | fin a, fin b => fin (a * b)
  | fin a, pinf => if a > 0 then pinf else if a < 0 then ninf else nan
  | fin a, ninf => if a > 0 then ninf else if a < 0 then pinf else nan
  | pinf, fin b => if b > 0 then pinf else if b < 0 then ninf else nan
  | ninf, fin b => if b > 0 then ninf else if b < 0 then pinf else nan
  | pinf, pinf => pinf
  | pinf, ninf => ninf
  | ninf, pinf => ninf
  | ninf, ninf => pinf

/-- Subtract a finite scalar (the slab test only ever subtracts the finite
ray origin from a bound). -/
def subK : EF K → K → EF K
  | nan, _ => nan
  | pinf, _ => pinf
  | ninf, _ => ninf
  | fin a, k => fin (a - k)

/-- Add a finite scalar. -/
def addK : EF K → K → EF K
  | nan, _ => nan
  | pinf, _ => pinf
  | ninf, _ => ninf
  | fin a, k => fin (a + k)

/-- Rust's `f32::max`: a NaN operand is ignored. -/
def fmax : EF K → EF K → EF K
  | nan, b => b
  | a, nan => a
  | pinf, _ => pinf
  | _, pinf => pinf
  | ninf, b => b
  | a, ninf => a
  | fin a, fin b => fin (max a b)

/-- Rust's `f32::min`: a NaN operand is ignored. -/
def fmin : EF K → EF K → EF K
  | nan, b => b
  | a, nan => a
  | ninf, _ => ninf
  | _, ninf => ninf
  | pinf, b => b
  | a, pinf => a
  | fin a, fin b => fin (min a b)

/-- IEEE `<=` as a Bool: false whenever a NaN is involved. -/
def fle : EF K → EF K → Bool
  | nan, _ => false
  | _, nan => false
  | ninf, _ => true
  | _, ninf => false
  | _, pinf => true
  | pinf, _ => false
  | fin a, fin b => decide (a ≤ b)

/-- IEEE `<` as a Bool: false whenever a NaN is involved. -/
def flt : EF K → EF K → Bool
  | nan, _ => false
  | _, nan => false
  | ninf, ninf => false
  | ninf, _ => true
  | _, ninf => false
  | pinf, _ => false
  | _, pinf => true
  | fin a, fin b => decide (a < b)

end EF

/-- `culet_lib/src/material.rs` `Material`. -/
inductive Material (K : Type) where
  | Refractive (color : Vec3 K) (refractive_index : K) (dispersion : K) : Material K
  | Diffuse (color : Vec3 K) : Material K
  | Light (color : Vec3 K) : Material K
deriving DecidableEq, Repr

namespace Material

variable {K : Type} [LinearOrderedField K]

/-- `Material::default()` is `Light` with `Vec3::default()` (zero). -/
def default : Material K := Light (Vec3.splat 0)

/-- `Material::color()` -/
def color : Material K → Vec3 K
  | Refractive c _ _ => c
  | Diffuse c => c
  | Light c => c

end Material

/-- `culet_lib/src/ray.rs` `Ray` (the stored fields; the normalising
constructor `Ray::new` is defined over `ℝ` below). -/
structure Ray (K : Type) where
  origin : Vec3 K
  direction : Vec3 K
deriving DecidableEq, Repr

/-- `src/hittable.rs` `HitInfo`. -/
structure HitInfo (K : Type) where
  position : Vec3 K
  normal : Vec3 K
  ray_distance : K
  front_face : Bool
  material : Material K
deriving DecidableEq, Repr

/-- `f32::EPSILON = 2^(-23)`, exactly representable. -/
def f32Eps (K : Type) [LinearOrderedField K] : K := 1 / 8388608

/-- `culet_lib/src/mesh.rs` `Triangle` (three points, a stored unit
normal, a material). -/
structure Triangle (K : Type) where
  p0 : Vec3 K
  p1 : Vec3 K
  p2 : Vec3 K
  normal : Vec3 K
  material : Material K
deriving DecidableEq, Repr

namespace Triangle

variable {K : Type} [LinearOrderedField K]

/-- `Triangle::translate` (adds the vector to every point; the normal is
unchanged). -/
def translate (t : Triangle K) (v : Vec3 K) : Triangle K :=
  { t with p0 := t.p0 + v, p1 := t.p1 + v, p2 := t.p2 + v }

/-- `Triangle::with_material` -/
def with_material (t : Triangle K) (m : Material K) : Triangle K :=
  { t with material := m }

/-- `impl Hittable for Triangle`: the Möller-Trumbore intersection test
from `culet_lib/src/mesh.rs`. -/
def hit_point (t : Triangle K) (ray : Ray K) (min_distance : K) :
    Option (HitInfo K) :=
  let edge01 := t.p1 - t.p0
  let edge02 := t.p2 - t.p0
  let pvec := ray.direction.cross edge02
  let determinant := edge01.dot pvec
  -- determinant is ~= 0, triangle is parallel to the ray
  if |determinant| < f32Eps K then none
  else
    let inv_det := 1 / determinant
    let tvec := ray.origin - t.p0
    let u := tvec.dot pvec * inv_det
    -- u parameter in barycentric coordinates is outside of the triangle
    if ¬(0 ≤ u ∧ u ≤ 1) then none
    else
      let qvec := tvec.cross edge01
      let v := ray.direction.dot qvec * inv_det
      -- v parameter in barycentric coordinates is outside of the triangle
      if v < 0 ∨ u + v > 1 then none
      else
        let dist := edge02.dot qvec * inv_det
        if dist > min_distance then
          some { position := ray.origin + dist • ray.direction
                 normal := t.normal
                 ray_distance := dist
                 front_face := decide (ray.direction.dot t.normal < 0)
                 material := t.material }
        else none

end Triangle

/-- `culet_lib/src/mesh.rs` `BoundingBox`: three half-open scalar ranges,
stored on the extended type because `Mesh::from_tris` seeds the bound
folds with `f32::INFINITY` / `f32::NEG_INFINITY`. -/
structure BoundingBox (K : Type) where
  range_x : EF K × EF K
  range_y : EF K × EF K
  range_z : EF K × EF K
deriving DecidableEq, Repr

namespace BoundingBox

variable {K : Type} [LinearOrderedField K]

/-- `BoundingBox::axis` (any index other than 1 or 2 selects x). -/
def axis (bb : BoundingBox K) : ℕ → EF K × EF K
  | 1 => bb.range_y
  | 2 => bb.range_z
  | _ => bb.range_x

/-- One iteration of the slab-test loop in
`impl Hittable for BoundingBox`, for one axis range and the matching
origin/direction components: per-axis entry/exit parameters via the
inverse direction component, interval intersection, early-out when the
running interval empties. -/
def slabCheck (bounds : EF K × EF K) (o d : K) (acc : EF K × EF K) :
    Option (EF K × EF K) :=
  let inv_dir := EF.div (EF.fin 1) (EF.fin d)
  let t0 := EF.mul (EF.subK bounds.1 o) inv_dir
  let t1 := EF.mul (EF.subK bounds.2 o) inv_dir
  let tt := if EF.flt inv_dir (EF.fin 0) then (t1, t0) else (t0, t1)
  let min_t := EF.fmax acc.1 tt.1
  let max_t := EF.fmin acc.2 tt.2
  if EF.fle max_t min_t then none else some (min_t, max_t)

/-- The slab-test loop body at axis `i`. -/
def slabAxis (bb : BoundingBox K) (ray : Ray K) (i : ℕ) (acc : EF K × EF K) :
    Option (EF K × EF K) :=
  slabCheck (bb.axis i) (ray.origin.comp i) (ray.direction.comp i) acc

/-- `BoundingBox::hit_point` reduced to the parametric entry distance
`min_t`; its callers only ever use the hit through `Hittable::hit_by`
(`is_some`), and the `min_distance` argument is ignored by the source. -/
def hitT (bb : BoundingBox K) (ray : Ray K) : Option (EF K) :=
  match slabAxis bb ray 0 (EF.ninf, EF.pinf) with
  | none => none
  | some acc =>
    match slabAxis bb ray 1 acc with
    | none => none
    | some acc =>
      match slabAxis bb ray 2 acc with
      | none => none
      | some acc => some acc.1

/-- `Hittable::hit_by` for `BoundingBox` (the default trait method is
`hit_point(..).is_some()`). -/
def hit_by (bb : BoundingBox K) (ray : Ray K) (_min_distance : K) : Bool :=
  (bb.hitT ray).isSome

end BoundingBox

/-- `culet_lib/src/mesh.rs` `Mesh`. -/
structure Mesh (K : Type) where
  origin : Vec3 K
  triangles : List (Triangle K)
  bounding_box : BoundingBox K
deriving DecidableEq, Repr

/-- One comparison step of Rust's `Iterator::min_by` on hit distances:
the running minimum is replaced only on strictly smaller distance, so
the first of equally minimal elements wins (as documented for
`min_by`). -/
def minStep {K : Type} [LinearOrderedField K]
    (acc : Option (HitInfo K)) (h : HitInfo K) : Option (HitInfo K) :=
  match acc with
  | none => some h
  | some m => if h.ray_distance < m.ray_distance then some h else some m

/-- Rust `Iterator::min_by` on hit distances. -/
def firstMinByDist {K : Type} [LinearOrderedField K]
    (l : List (HitInfo K)) : Option (HitInfo K) :=
  l.foldl minStep none

/-- The body of the `Scene::hit_point` loop: keep the incumbent unless
the new mesh hit is strictly closer (`info.ray_distance <
closest_hit_distance`, whose initial value is `INFINITY`, so a first
hit always wins). -/
def closerHit {K : Type} [LinearOrderedField K]
    (acc r : Option (HitInfo K)) : Option (HitInfo K) :=
  match r with
  | some info =>
      match acc with
      | none => some info
      | some best =>
          if info.ray_distance < best.ray_distance then some info else some best
  | none => acc

namespace Mesh

variable {K : Type} [LinearOrderedField K]

/-- `impl Hittable for Mesh`: bounding-box pre-test, then the linear scan
over the triangles keeping the closest accepted hit. -/
def hit_point (mesh : Mesh K) (ray : Ray K) (min_distance : K) :
    Option (HitInfo K) :=
  if mesh.bounding_box.hit_by ray min_distance then
    firstMinByDist
      (((mesh.triangles.filterMap fun t => t.hit_point ray min_distance).filter
        fun i => min_distance ≤ i.ray_distance))
  else none

/-- `Mesh::from_tris`: translate the triangles by the mesh origin, fold
min/max bounds over every vertex starting from `±INFINITY`, and widen
each range so that its extent is at least `0.1`. -/
def from_tris (origin : Vec3 K) (tris : List (Triangle K)) : Mesh K :=
  let tris := tris.map fun t => t.translate origin
  let pts := tris.flatMap fun t => [t.p0, t.p1, t.p2]
  let min_x := pts.foldl (fun acc p => EF.fmin acc (EF.fin p.x)) EF.pinf
  let min_y := pts.foldl (fun acc p => EF.fmin acc (EF.fin p.y)) EF.pinf
  let min_z := pts.foldl (fun acc p => EF.fmin acc (EF.fin p.z)) EF.pinf
  let max_x := pts.foldl (fun acc p => EF.fmax acc (EF.fin p.x)) EF.ninf
  let max_y := pts.foldl (fun acc p => EF.fmax acc (EF.fin p.y)) EF.ninf
  let max_z := pts.foldl (fun acc p => EF.fmax acc (EF.fin p.z)) EF.ninf
  -- don't allow BBs with zero dimensions
  { origin := origin
    triangles := tris
    bounding_box :=
      { range_x := (min_x, EF.fmax max_x (EF.addK min_x (1 / 10)))
        range_y := (min_y, EF.fmax max_y (EF.addK min_y (1 / 10)))
        range_z := (min_z, EF.fmax max_z (EF.addK min_z (1 / 10))) } }

/-- `Mesh::from_tris_with_material` -/
def from_tris_with_material (origin : Vec3 K) (tris : List (Triangle K))
    (material : Material K) : Mesh K :=
  let mesh := from_tris origin tris
  { mesh with triangles := mesh.triangles.map fun t => { t with material := material } }

end Mesh

/-- `src/scene.rs` `Scene`. -/
structure Scene (K : Type) where
  meshes : List (Mesh K)
  shadow_bias : K
deriving DecidableEq, Repr

namespace Scene

variable {K : Type} [LinearOrderedField K]

/-- `Scene::new` -/
def new (meshes : List (Mesh K)) : Scene K :=
  { meshes := meshes, shadow_bias := 1 / 1000000 }

/-- `Scene::empty` -/
def empty : Scene K := { meshes := [], shadow_bias := 1 / 1000000 }

/-- `impl Hittable for Scene`: loop over the meshes keeping the hit with
the strictly smallest distance (the running best starts at `INFINITY`,
so the first mesh hit is always accepted). -/
def hit_point (scene : Scene K) (ray : Ray K) (min_distance : K) :
    Option (HitInfo K) :=
  scene.meshes.foldl (fun acc m => closerHit acc (m.hit_point ray min_distance)) none

end Scene

/-! ## Real-valued constructors and the light-transport engine

`Ray::new`, `Triangle::new`, `fresnel` and `RenderOptions::trace` involve
square roots and transcendental functions, so they are embedded over `ℝ`.
The `todo!()` panic on the `Diffuse` material arm is modelled by `none`;
every non-panicking path returns `some` color.
-/

open Classical in
/-- `glam`'s `Vec3::normalize`: divide by the Euclidean length. -/
noncomputable def Vec3.normalize (v : Vec3 ℝ) : Vec3 ℝ :=
  let len := Real.sqrt (v.dot v)
  ⟨v.x / len, v.y / len, v.z / len⟩

/-- `Ray::new` renormalises the direction. -/
noncomputable def Ray.new (origin direction : Vec3 ℝ) : Ray ℝ :=
  { origin := origin, direction := direction.normalize }

/-- `Triangle::new`: precompute the unit face normal from the two edges;
the material starts as `Material::default()`. -/
noncomputable def Triangle.new (p1 p2 p3 : Vec3 ℝ) : Triangle ℝ :=
  { p0 := p1, p1 := p2, p2 := p3
    normal := ((p2 - p1).cross (p3 - p1)).normalize
    material := Material.default }

/-- `fresnel`'s transmission-angle sine `sin_t` (`culet_lib/src/render.rs`):
`(eta_i / eta_t) * (1.0 - cos_i * cos_i).max(0.0).sqrt()`. -/
noncomputable def fresnelSinT (incoming normal : Vec3 ℝ) (eta_i eta_t : ℝ) : ℝ :=
  let cos_i := incoming.dot normal
  (eta_i / eta_t) * Real.sqrt (max (1 - cos_i * cos_i) 0)

open Classical in
/-- `fresnel` from `culet_lib/src/render.rs`: unpolarised Fresnel
reflectance averaging the s- and p-polarisation terms, with the total
internal reflection early-out. -/
noncomputable def fresnel (incoming normal : Vec3 ℝ) (eta_i eta_t : ℝ) : ℝ :=
  let cos_i := incoming.dot normal
  let sin_t := fresnelSinT incoming normal eta_i eta_t
  if sin_t > 1 then
    -- total internal reflection
    1
  else
    let cos_t := Real.sqrt (max (1 - sin_t * sin_t) 0)
    let cos_i := |cos_i|
    let r_s := (eta_t * cos_i - eta_i * cos_t) / (eta_t * cos_i + eta_i * cos_t)
    let r_p := (eta_i * cos_i - eta_t * cos_t) / (eta_i * cos_i + eta_t * cos_t)
    (r_s * r_s + r_p * r_p) / 2

/-- Componentwise `Vec3::exp`. -/
noncomputable def Vec3.vexp (v : Vec3 ℝ) : Vec3 ℝ :=
  ⟨Real.exp v.x, Real.exp v.y, Real.exp v.z⟩

/-- `LightingModel` from `culet_lib/src/render.rs`. -/
inductive LightingModel where
  | Isometric : LightingModel
  | Cosine : LightingModel
deriving DecidableEq, Repr

/-- The camera as consumed by `RenderOptions::trace`, which only reads
`Camera::look_dir()`; the viewport construction is outside the traced
claims. -/
structure Camera where
  look_dir : Vec3 ℝ

/-- `RenderOptions` from `culet_lib/src/render.rs` (the `Arc<Scene>` is
an immutable shared reference, embedded by value). -/
structure RenderOptions where
  camera : Camera
  scene : Scene ℝ
  image_width : ℕ
  image_height : ℕ
  samples_per_pixel : ℕ
  max_bounces : ℕ
  lighting_model : LightingModel
  light_intensity : ℝ
  background_color : Vec3 ℝ
  gem_color : Vec3 ℝ
  gem_ri : ℝ
  threads : ℕ

open Classical in
/-- `RenderOptions::trace`.  The `todo!()` on `Material::Diffuse` is the
`none` value; each recursive call consumes one bounce.  The second
argument is the source's `max_bounces` parameter (shadowing the
`self.max_bounces` configuration field, compared against it in the
no-hit branch). -/
noncomputable def RenderOptions.trace (opts : RenderOptions) :
    Ray ℝ → ℕ → Option (Vec3 ℝ)
  | ray, max_bounces =>
    match Scene.hit_point opts.scene ray (1 / 100000) with
    | some info =>
      match max_bounces with
      | 0 =>
        -- `return info.material.color() * 0.0;`
        some ((0 : ℝ) • info.material.color)
      | Nat.succ b =>
        match info.material with
        | Material.Refractive color refractive_index _dispersion =>
          let nne :=
            if info.front_face then (info.normal, (1 : ℝ), refractive_index)
            else (-info.normal, refractive_index, (1 : ℝ))
          let normal := nne.1
          let eta_i := nne.2.1
          let eta_t := nne.2.2
          let refl_share := fresnel ray.direction normal eta_i eta_t
          let exiting_pavilion :=
            info.front_face = false ∧ 0 < normal.dot ⟨0, 0, 1⟩
          do
            -- color from refraction ray
            let refraction_color ←
              if refl_share < 1 ∧ ¬exiting_pavilion then
                let eta_quot :=
                  if info.front_face then 1 / refractive_index else refractive_index
                let cos_1 := -(ray.direction.dot normal)
                let out_perp := eta_quot • (ray.direction + cos_1 • normal)
                let out_parallel :=
                  (-Real.sqrt (1 - min (out_perp.dot out_perp) 1)) • normal
                let out_direction := out_perp + out_parallel
                let out_origin := info.position
                opts.trace (Ray.new out_origin out_direction) b
              else some (Vec3.splat 0)
            -- color from reflection ray
            let reflection_color ←
              opts.trace
                (Ray.new info.position
                  ((ray.direction -
                    (2 * ray.direction.dot normal) • normal).normalize)) b
            let subcolor :=
              refl_share • reflection_color + (1 - refl_share) • refraction_color
            if info.front_face = false then
              -- Beer's law: attenuate color through a translucent medium
              some (subcolor * (info.ray_distance • (-color)).vexp)
            else some subcolor
        | Material.Diffuse _ => none
        | Material.Light color => some color
    | none =>
      if max_bounces = opts.max_bounces then some opts.background_color
      else
        match opts.lighting_model with
        | LightingModel.Cosine =>
          let c0 := -(min (ray.direction.dot opts.camera.look_dir) 0)
          -- add a head shadow directly above
          let c := if Real.arccos c0 * (180 / Real.pi) < 10 then (0 : ℝ) else c0
          some (c • Vec3.splat opts.light_intensity)
        | LightingModel.Isometric =>
          if 0 ≤ ray.direction.dot (-opts.camera.look_dir) then
            some (Vec3.splat opts.light_intensity)
          else some (Vec3.splat 0)

/-! ## The streaming scheduler's pixel bookkeeping

`RenderOptions::render_streaming` builds `(0..width*height).collect()`,
shuffles it with `SmallRng::from_entropy()` (an entropy seed, not a fixed
one — the fixed literal `0x123456789ABCDEF` seeds only the per-chunk
jitter RNG), and calls `pixels.chunks(self.threads)`, i.e. contiguous
chunks of *size* `threads`.  The shuffle result is abstracted as any
permutation of the pixel list; the per-pixel sampled color (jitter RNG +
trace + averaging) is abstracted as a function of the pixel index, since
the scheduling claims do not depend on its value. -/

/-- `RenderMsg` from `culet_lib/src/render.rs`. -/
inductive RenderMsg where
  | Pixel (x : ℕ) (y : ℕ) (color : Vec3 ℝ) : RenderMsg
  | Abort : RenderMsg

/-- The pixel index list `(0..self.image_width * self.image_height)`. -/
def renderPixelList (image_width image_height : ℕ) : List ℕ :=
  List.range (image_width * image_height)

/-- Rust's slice `chunks(n)`: contiguous chunks of length `n`, the last
chunk possibly shorter (`chunks` panics on `n = 0`; the embedding returns
`[]` there, and every theorem assumes `0 < n`). -/
def chunksOf (n : ℕ) : List α → List (List α)
  | [] => []
  | x :: xs =>
    if h : n = 0 then []
    else (x :: xs.take (n - 1)) :: chunksOf n (xs.drop (n - 1))
termination_by l => l.length
decreasing_by
  simp only [List.length_cons, List.length_drop]
  omega

/-- The messages a full (uncancelled) run of the worker loop in
`render_streaming` pushes onto the channel: one `Pixel` per assigned
index, with `x = i % width`, `y = i / width` and the accumulated sample
average `colorOf i`.  No code path constructs `RenderMsg::Abort`. -/
def renderMessages (image_width : ℕ) (threads : ℕ) (shuffled : List ℕ)
    (colorOf : ℕ → Vec3 ℝ) : List RenderMsg :=
  (chunksOf threads shuffled).flatMap fun chunk =>
    chunk.map fun i => RenderMsg.Pixel (i % image_width) (i / image_width) (colorOf i)

/-! ## C9: `Ray::new` direction normalisation -/

/-- C9 (amended): for every origin and every nonzero input direction,
`Ray::new` stores a direction of unit length (exactly, in the real-number
idealisation).  The zero vector cannot be normalised, see the
counterexample. -/
theorem C9_ray_new_unit_direction (origin direction : Vec3 ℝ)
    (hd : direction ≠ Vec3.mk 0 0 0) :
    (Ray.new origin direction).direction.dot (Ray.new origin direction).direction = 1 := by
  have hdot : Vec3.dot direction direction =
      direction.x * direction.x + direction.y * direction.y +
        direction.z * direction.z := rfl
  have h0 : 0 ≤ direction.x * direction.x := mul_self_nonneg _
  have h1 : 0 ≤ direction.y * direction.y := mul_self_nonneg _
  have h2 : 0 ≤ direction.z * direction.z := mul_self_nonneg _
  have hs : 0 < Vec3.dot direction direction := by
    rw [hdot]
    rcases lt_or_eq_of_le (by linarith :
        (0 : ℝ) ≤ direction.x * direction.x + direction.y * direction.y +
          direction.z * direction.z) with h | h
    · exact h
    · exfalso
      apply hd
      have hx : direction.x = 0 := mul_self_eq_zero.mp (by linarith)
      have hy : direction.y = 0 := mul_self_eq_zero.mp (by linarith)
      have hz : direction.z = 0 := mul_self_eq_zero.mp (by linarith)
      rw [Vec3.ext_iff]
      exact ⟨hx, hy, hz⟩
  have hll : Real.sqrt (Vec3.dot direction direction) *
      Real.sqrt (Vec3.dot direction direction) = Vec3.dot direction direction :=
    Real.mul_self_sqrt hs.le
  show Vec3.dot (Vec3.normalize direction) (Vec3.normalize direction) = 1
  show direction.x / Real.sqrt (Vec3.dot direction direction) *
        (direction.x / Real.sqrt (Vec3.dot direction direction)) +
      direction.y / Real.sqrt (Vec3.dot direction direction) *
        (direction.y / Real.sqrt (Vec3.dot direction direction)) +
      direction.z / Real.sqrt (Vec3.dot direction direction) *
        (direction.z / Real.sqrt (Vec3.dot direction direction)) = 1
  rw [div_mul_div_comm, div_mul_div_comm, div_mul_div_comm, div_add_div_same,
    div_add_div_same, hll, ← hdot, div_self (ne_of_gt hs)]

/-- C9 witness: a concrete nonzero direction of non-unit magnitude. -/
theorem C9_ray_new_unit_direction_witness :
    (Ray.new (Vec3.mk 0 0 0) (Vec3.mk 0 0 2)).direction.dot
      (Ray.new (Vec3.mk 0 0 0) (Vec3.mk 0 0 2)).direction = 1 :=
  C9_ray_new_unit_direction (Vec3.mk 0 0 0) (Vec3.mk 0 0 2)
    (by rw [Ne, Vec3.ext_iff]; push_neg; intro _ _; norm_num)

/-- C9 counterexample: with the zero input direction (a vector, as the
claim's "regardless of its magnitude" admits), the stored direction has
length 0, not 1 (the Rust code produces NaN components there — likewise
not unit length). -/
theorem C9_ray_new_zero_direction :
    (Ray.new (Vec3.mk 0 0 0) (Vec3.mk 0 0 0)).direction.dot
      (Ray.new (Vec3.mk 0 0 0) (Vec3.mk 0 0 0)).direction ≠ 1 := by
  have : (Ray.new (Vec3.mk 0 0 0) (Vec3.mk 0 0 0)).direction.dot
      (Ray.new (Vec3.mk 0 0 0) (Vec3.mk 0 0 0)).direction = 0 := by
    show Vec3.dot (Vec3.normalize ⟨0, 0, 0⟩) (Vec3.normalize ⟨0, 0, 0⟩) = 0
    rw [Vec3.normalize]
    show (0 : ℝ) / _ * ((0:ℝ) / _) + (0:ℝ) / _ * ((0:ℝ) / _) +
        (0:ℝ) / _ * ((0:ℝ) / _) = 0
    simp
  rw [this]
  norm_num

/-! ## C6: Fresnel reflectance -/

/-- The square of `(a - b) / (a + b)` is at most 1 for nonnegative `a`,
`b` (with Lean's `x / 0 = 0` convention covering `a + b = 0`; in the
source that corner is an IEEE `0/0 = NaN`, see the counterexample). -/
theorem fracSqLeOne (a b : ℝ) (ha : 0 ≤ a) (hb : 0 ≤ b) :
    ((a - b) / (a + b)) * ((a - b) / (a + b)) ≤ 1 := by
  rcases eq_or_lt_of_le (add_nonneg ha hb) with h | h
  · rw [← h]
    simp
  · rw [div_mul_div_comm]
    rw [div_le_one (mul_pos h h)]
    nlinarith

/-- C6 (amended): `fresnel` returns a reflectance in `[0,1]` for all
refractive indices `> 0`; it returns exactly 1 strictly beyond the
critical angle, and at exactly the critical angle whenever the incidence
is not grazing (`incoming ⬝ normal ≠ 0`).  At the degenerate
grazing-and-critical point all four products vanish and the source
computes `0/0` (NaN), so equality with 1 fails there — see the
counterexample. -/
theorem C6_fresnel_range_and_tir (incoming normal : Vec3 ℝ) (eta_i eta_t : ℝ)
    (hi : 0 < eta_i) (ht : 0 < eta_t) :
    (0 ≤ fresnel incoming normal eta_i eta_t ∧
      fresnel incoming normal eta_i eta_t ≤ 1) ∧
    (1 < fresnelSinT incoming normal eta_i eta_t →
      fresnel incoming normal eta_i eta_t = 1) ∧
    (fresnelSinT incoming normal eta_i eta_t = 1 →
      incoming.dot normal ≠ 0 → fresnel incoming normal eta_i eta_t = 1) := by
  set c := incoming.dot normal with hc
  set s := fresnelSinT incoming normal eta_i eta_t with hs
  have hfr : fresnel incoming normal eta_i eta_t =
      if s > 1 then 1
      else
        ((eta_t * |c| - eta_i * Real.sqrt (max (1 - s * s) 0)) /
            (eta_t * |c| + eta_i * Real.sqrt (max (1 - s * s) 0)) *
          ((eta_t * |c| - eta_i * Real.sqrt (max (1 - s * s) 0)) /
            (eta_t * |c| + eta_i * Real.sqrt (max (1 - s * s) 0))) +
        (eta_i * |c| - eta_t * Real.sqrt (max (1 - s * s) 0)) /
            (eta_i * |c| + eta_t * Real.sqrt (max (1 - s * s) 0)) *
          ((eta_i * |c| - eta_t * Real.sqrt (max (1 - s * s) 0)) /
            (eta_i * |c| + eta_t * Real.sqrt (max (1 - s * s) 0)))) / 2 := rfl
  refine ⟨?_, ?_, ?_⟩
  · rw [hfr]
    by_cases h1 : s > 1
    · rw [if_pos h1]
      norm_num
    · rw [if_neg h1]
      have ha : 0 ≤ eta_t * |c| := by positivity
      have hb : 0 ≤ eta_i * Real.sqrt (max (1 - s * s) 0) := by positivity
      have ha' : 0 ≤ eta_i * |c| := by positivity
      have hb' : 0 ≤ eta_t * Real.sqrt (max (1 - s * s) 0) := by positivity
      constructor
      · have q1 := mul_self_nonneg
          ((eta_t * |c| - eta_i * Real.sqrt (max (1 - s * s) 0)) /
            (eta_t * |c| + eta_i * Real.sqrt (max (1 - s * s) 0)))
        have q2 := mul_self_nonneg
          ((eta_i * |c| - eta_t * Real.sqrt (max (1 - s * s) 0)) /
            (eta_i * |c| + eta_t * Real.sqrt (max (1 - s * s) 0)))
        linarith
      · have t1 := fracSqLeOne _ _ ha hb
        have t2 := fracSqLeOne _ _ ha' hb'
        linarith
  · intro h1
    rw [hfr, if_pos h1]
  · intro h1 hcne
    have h1' : ¬(s > 1) := by rw [h1]; norm_num
    rw [hfr, if_neg h1']
    have hz : max (1 - s * s) 0 = 0 := by rw [h1]; norm_num
    rw [hz, Real.sqrt_zero]
    have hca : 0 < |c| := abs_pos.mpr hcne
    have hta : eta_t * |c| ≠ 0 := by positivity
    have hia : eta_i * |c| ≠ 0 := by positivity
    rw [mul_zero, mul_zero, sub_zero, add_zero, sub_zero, add_zero,
      div_self hta, div_self hia]
    norm_num

/-- C6 witness: total internal reflection at a concrete configuration
(incidence from the dense side, `sin_t = 8/5 > 1`), where `fresnel`
returns exactly 1. -/
theorem C6_fresnel_range_and_tir_witness :
    fresnel (Vec3.mk (3/5 : ℝ) (4/5) 0) (Vec3.mk 1 0 0) 2 1 = 1 := by
  have hsin : fresnelSinT (Vec3.mk (3/5 : ℝ) (4/5) 0) (Vec3.mk 1 0 0) 2 1 = 8/5 := by
    show (2 / 1 : ℝ) *
        Real.sqrt (max (1 - Vec3.dot ⟨3/5, 4/5, 0⟩ ⟨1, 0, 0⟩ *
          Vec3.dot ⟨3/5, 4/5, 0⟩ ⟨1, 0, 0⟩) 0) = 8/5
    have hdot : Vec3.dot (⟨3/5, 4/5, 0⟩ : Vec3 ℝ) ⟨1, 0, 0⟩ = 3/5 := by
      show (3/5 : ℝ) * 1 + 4/5 * 0 + 0 * 0 = 3/5
      norm_num
    rw [hdot]
    rw [show max (1 - (3/5 : ℝ) * (3/5)) 0 = (4/5) ^ 2 by norm_num]
    rw [Real.sqrt_sq (by norm_num : (0:ℝ) ≤ 4/5)]
    norm_num
  exact (C6_fresnel_range_and_tir (Vec3.mk (3/5 : ℝ) (4/5) 0) (Vec3.mk 1 0 0) 2 1
    (by norm_num) (by norm_num)).2.1 (by rw [hsin]; norm_num)

/-- C6 counterexample: at grazing incidence (`incoming ⬝ normal = 0`)
with equal indices, the computed transmission sine is exactly 1 — the
critical angle is reached — yet `fresnel` does not return 1: all four
products in `r_s`, `r_p` vanish, giving `0/0` (0 in this embedding's
field convention, NaN in the source's f32 arithmetic; in both cases not
the claimed 1). -/
theorem C6_fresnel_critical_grazing :
    fresnelSinT (Vec3.mk (1 : ℝ) 0 0) (Vec3.mk 0 1 0) 1 1 = 1 ∧
    fresnel (Vec3.mk (1 : ℝ) 0 0) (Vec3.mk 0 1 0) 1 1 ≠ 1 := by
  have hdot : Vec3.dot (⟨1, 0, 0⟩ : Vec3 ℝ) ⟨0, 1, 0⟩ = 0 := by
    show (1 : ℝ) * 0 + 0 * 1 + 0 * 0 = 0
    norm_num
  have hsin : fresnelSinT (Vec3.mk (1 : ℝ) 0 0) (Vec3.mk 0 1 0) 1 1 = 1 := by
    show (1 / 1 : ℝ) *
        Real.sqrt (max (1 - Vec3.dot ⟨1, 0, 0⟩ ⟨0, 1, 0⟩ *
          Vec3.dot ⟨1, 0, 0⟩ ⟨0, 1, 0⟩) 0) = 1
    rw [hdot]
    rw [show max (1 - (0:ℝ) * 0) 0 = 1 by norm_num]
    rw [Real.sqrt_one]
    norm_num
  refine ⟨hsin, ?_⟩
  have hfr : fresnel (Vec3.mk (1 : ℝ) 0 0) (Vec3.mk 0 1 0) 1 1 = 0 := by
    rw [show fresnel (Vec3.mk (1 : ℝ) 0 0) (Vec3.mk 0 1 0) 1 1 =
        if fresnelSinT (Vec3.mk (1 : ℝ) 0 0) (Vec3.mk 0 1 0) 1 1 > 1 then 1
        else
          ((1 * |Vec3.dot (⟨1,0,0⟩ : Vec3 ℝ) ⟨0,1,0⟩| -
              1 * Real.sqrt (max (1 - fresnelSinT (Vec3.mk (1:ℝ) 0 0) (Vec3.mk 0 1 0) 1 1 *
                fresnelSinT (Vec3.mk (1:ℝ) 0 0) (Vec3.mk 0 1 0) 1 1) 0)) /
              (1 * |Vec3.dot (⟨1,0,0⟩ : Vec3 ℝ) ⟨0,1,0⟩| +
              1 * Real.sqrt (max (1 - fresnelSinT (Vec3.mk (1:ℝ) 0 0) (Vec3.mk 0 1 0) 1 1 *
                fresnelSinT (Vec3.mk (1:ℝ) 0 0) (Vec3.mk 0 1 0) 1 1) 0)) *
            ((1 * |Vec3.dot (⟨1,0,0⟩ : Vec3 ℝ) ⟨0,1,0⟩| -
              1 * Real.sqrt (max (1 - fresnelSinT (Vec3.mk (1:ℝ) 0 0) (Vec3.mk 0 1 0) 1 1 *
                fresnelSinT (Vec3.mk (1:ℝ) 0 0) (Vec3.mk 0 1 0) 1 1) 0)) /
              (1 * |Vec3.dot (⟨1,0,0⟩ : Vec3 ℝ) ⟨0,1,0⟩| +
              1 * Real.sqrt (max (1 - fresnelSinT (Vec3.mk (1:ℝ) 0 0) (Vec3.mk 0 1 0) 1 1 *
                fresnelSinT (Vec3.mk (1:ℝ) 0 0) (Vec3.mk 0 1 0) 1 1) 0))) +
          (1 * |Vec3.dot (⟨1,0,0⟩ : Vec3 ℝ) ⟨0,1,0⟩| -
              1 * Real.sqrt (max (1 - fresnelSinT (Vec3.mk (1:ℝ) 0 0) (Vec3.mk 0 1 0) 1 1 *
                fresnelSinT (Vec3.mk (1:ℝ) 0 0) (Vec3.mk 0 1 0) 1 1) 0)) /
              (1 * |Vec3.dot (⟨1,0,0⟩ : Vec3 ℝ) ⟨0,1,0⟩| +
              1 * Real.sqrt (max (1 - fresnelSinT (Vec3.mk (1:ℝ) 0 0) (Vec3.mk 0 1 0) 1 1 *
                fresnelSinT (Vec3.mk (1:ℝ) 0 0) (Vec3.mk 0 1 0) 1 1) 0)) *
            ((1 * |Vec3.dot (⟨1,0,0⟩ : Vec3 ℝ) ⟨0,1,0⟩| -
              1 * Real.sqrt (max (1 - fresnelSinT (Vec3.mk (1:ℝ) 0 0) (Vec3.mk 0 1 0) 1 1 *
                fresnelSinT (Vec3.mk (1:ℝ) 0 0) (Vec3.mk 0 1 0) 1 1) 0)) /
              (1 * |Vec3.dot (⟨1,0,0⟩ : Vec3 ℝ) ⟨0,1,0⟩| +
              1 * Real.sqrt (max (1 - fresnelSinT (Vec3.mk (1:ℝ) 0 0) (Vec3.mk 0 1 0) 1 1 *
                fresnelSinT (Vec3.mk (1:ℝ) 0 0) (Vec3.mk 0 1 0) 1 1) 0)))) / 2
      from rfl]
    rw [hsin, hdot]
    norm_num
  rw [hfr]
  norm_num

/-! ## C1 and C7: `trace` termination behaviour at the hit -/

/-- C1 (amended): whenever the scene reports a nearest hit, `trace` with
a zero bounce budget returns exactly black for every material — the
early return `info.material.color() * 0.0` precedes the material match,
so this includes `Light` hits — and a `Light` hit returns its raw
emission color for every strictly positive bounce budget. -/
theorem C1_trace_zero_bounces_black_and_light_emission (opts : RenderOptions)
    (ray : Ray ℝ) (info : HitInfo ℝ)
    (h : Scene.hit_point opts.scene ray (1 / 100000) = some info) :
    opts.trace ray 0 = some (Vec3.mk 0 0 0) ∧
    ∀ c b, info.material = Material.Light c → 0 < b → opts.trace ray b = some c := by
  constructor
  · rw [RenderOptions.trace, h]
    have hz : (0 : ℝ) • info.material.color = Vec3.mk 0 0 0 := by
      rw [Vec3.ext_iff]
      simp
    exact congrArg some hz
  · intro c b hm hb
    match b, hb with
    | Nat.succ b, _ =>
      rcases info with ⟨pos, nrm, dist, ff, mat⟩
      change mat = Material.Light c at hm
      subst hm
      rw [RenderOptions.trace, h]

/-- C7 (amended): whenever the nearest hit has a `Diffuse` material and
the bounce budget is strictly positive, `trace` reaches the `todo!()`
arm and panics (modelled by `none`) rather than returning a color.  With
a zero budget the early return yields black silently — see the
counterexample. -/
theorem C7_trace_diffuse_unimplemented (opts : RenderOptions) (ray : Ray ℝ)
    (info : HitInfo ℝ) (c : Vec3 ℝ) (b : ℕ)
    (h : Scene.hit_point opts.scene ray (1 / 100000) = some info)
    (hm : info.material = Material.Diffuse c) (hb : 0 < b) :
    opts.trace ray b = none := by
  match b, hb with
  | Nat.succ b, _ =>
    rcases info with ⟨pos, nrm, dist, ff, mat⟩
    change mat = Material.Diffuse c at hm
    subst hm
    rw [RenderOptions.trace, h]

/-- A concrete triangle in the plane `z = -2` (built through
`Triangle::new`, so its stored normal is the normalised edge cross
product). -/
noncomputable def triC1 : Triangle ℝ :=
  Triangle.new (Vec3.mk (-1) (-1) (-2)) (Vec3.mk 1 (-1) (-2)) (Vec3.mk 0 1 (-2))

/-- A one-triangle mesh with a chosen material, built through
`Mesh::from_tris_with_material`. -/
noncomputable def meshC1 (m : Material ℝ) : Mesh ℝ :=
  Mesh.from_tris_with_material (Vec3.mk 0 0 0) [triC1] m

/-- The one-mesh scene around `meshC1`. -/
noncomputable def sceneC1 (m : Material ℝ) : Scene ℝ := Scene.new [meshC1 m]

/-- The camera ray straight down the `-z` axis. -/
noncomputable def rayC1 : Ray ℝ := Ray.new (Vec3.mk 0 0 0) (Vec3.mk 0 0 (-1))

theorem rayC1_eq :
    rayC1 = { origin := Vec3.mk 0 0 0, direction := Vec3.mk 0 0 (-1) } := by
  rw [rayC1, Ray.new]
  congr 1
  show Vec3.mk ((0:ℝ) / Real.sqrt (Vec3.dot ⟨0, 0, -1⟩ ⟨0, 0, -1⟩))
      ((0:ℝ) / Real.sqrt (Vec3.dot ⟨0, 0, -1⟩ ⟨0, 0, -1⟩))
      ((-1:ℝ) / Real.sqrt (Vec3.dot ⟨0, 0, -1⟩ ⟨0, 0, -1⟩)) = Vec3.mk 0 0 (-1)
  have hd : Vec3.dot (Vec3.mk (0:ℝ) 0 (-1)) (Vec3.mk 0 0 (-1)) = 1 := by
    show (0:ℝ) * 0 + 0 * 0 + (-1) * (-1) = 1
    norm_num
  rw [hd, Real.sqrt_one, Vec3.ext_iff]
  norm_num

theorem triC1_eq :
    triC1 = { p0 := Vec3.mk (-1) (-1) (-2), p1 := Vec3.mk 1 (-1) (-2)
              p2 := Vec3.mk 0 1 (-2), normal := Vec3.mk 0 0 1
              material := Material.default } := by
  rw [triC1, Triangle.new]
  congr 1
  have hcross : (Vec3.mk (1:ℝ) (-1) (-2) - Vec3.mk (-1) (-1) (-2)).cross
      (Vec3.mk 0 1 (-2) - Vec3.mk (-1) (-1) (-2)) = Vec3.mk 0 0 4 := by
    rw [Vec3.ext_iff]
    simp [Vec3.cross]
    norm_num
  rw [hcross]
  show Vec3.mk ((0:ℝ) / Real.sqrt (Vec3.dot ⟨0, 0, 4⟩ ⟨0, 0, 4⟩))
      ((0:ℝ) / Real.sqrt (Vec3.dot ⟨0, 0, 4⟩ ⟨0, 0, 4⟩))
      ((4:ℝ) / Real.sqrt (Vec3.dot ⟨0, 0, 4⟩ ⟨0, 0, 4⟩)) = Vec3.mk 0 0 1
  have hd : Vec3.dot (Vec3.mk (0:ℝ) 0 4) (Vec3.mk 0 0 4) = 16 := by
    show (0:ℝ) * 0 + 0 * 0 + 4 * 4 = 16
    norm_num
  rw [hd, show (16:ℝ) = 4 ^ 2 by norm_num,
    Real.sqrt_sq (by norm_num : (0:ℝ) ≤ 4), Vec3.ext_iff]
  norm_num

/-- The bounding box `Mesh::from_tris` computes for `triC1` (the flat z
range is widened to the minimum extent `0.1`). -/
noncomputable def bbC1 : BoundingBox ℝ :=
  { range_x := (EF.fin (-1), EF.fin 1)
    range_y := (EF.fin (-1), EF.fin 1)
    range_z := (EF.fin (-2), EF.fin (-19/10)) }

theorem meshC1_eq (m : Material ℝ) :
    meshC1 m =
      { origin := Vec3.mk 0 0 0
        triangles := [{ p0 := Vec3.mk (-1) (-1) (-2), p1 := Vec3.mk 1 (-1) (-2)
                        p2 := Vec3.mk 0 1 (-2), normal := Vec3.mk 0 0 1
                        material := m }]
        bounding_box := bbC1 } := by
  rw [meshC1, Mesh.from_tris_with_material, Mesh.from_tris, triC1_eq]
  simp only [Triangle.translate, List.map, List.flatMap, List.foldl, List.flatten,
    List.append_nil, EF.fmin, EF.fmax, EF.addK, bbC1]
  norm_num [Vec3.ext_iff, min_def, max_def]

/-- The hit `Scene::hit_point` reports for `rayC1` against `sceneC1`:
the triangle plane `z = -2` at parametric distance 2, front face. -/
def infoC1 (m : Material ℝ) : HitInfo ℝ :=
  { position := Vec3.mk 0 0 (-2), normal := Vec3.mk 0 0 1
    ray_distance := 2, front_face := true, material := m }

theorem sceneC1_hit (m : Material ℝ) :
    Scene.hit_point (sceneC1 m) rayC1 (1 / 100000) = some (infoC1 m) := by
  rw [sceneC1, Scene.new, meshC1_eq m, rayC1_eq]
  rw [Scene.hit_point]
  simp only [List.foldl]
  rw [Mesh.hit_point]
  have hby : BoundingBox.hit_by bbC1
      { origin := Vec3.mk 0 0 0, direction := Vec3.mk 0 0 (-1) } (1 / 100000) = true := by
    rw [BoundingBox.hit_by, BoundingBox.hitT]
    have h0 : BoundingBox.slabAxis bbC1
        { origin := Vec3.mk 0 0 0, direction := Vec3.mk 0 0 (-1) } 0
        (EF.ninf, EF.pinf) = some (EF.ninf, EF.pinf) := by
      rw [BoundingBox.slabAxis, BoundingBox.slabCheck]
      norm_num [BoundingBox.axis, bbC1, Vec3.comp, EF.div, EF.subK, EF.mul,
        EF.flt, EF.fle, EF.fmax, EF.fmin]
    have h1 : BoundingBox.slabAxis bbC1
        { origin := Vec3.mk 0 0 0, direction := Vec3.mk 0 0 (-1) } 1
        (EF.ninf, EF.pinf) = some (EF.ninf, EF.pinf) := by
      rw [BoundingBox.slabAxis, BoundingBox.slabCheck]
      norm_num [BoundingBox.axis, bbC1, Vec3.comp, EF.div, EF.subK, EF.mul,
        EF.flt, EF.fle, EF.fmax, EF.fmin]
    have h2 : BoundingBox.slabAxis bbC1
        { origin := Vec3.mk 0 0 0, direction := Vec3.mk 0 0 (-1) } 2
        (EF.ninf, EF.pinf) = some (EF.fin (19/10), EF.fin 2) := by
      rw [BoundingBox.slabAxis, BoundingBox.slabCheck]
      norm_num [BoundingBox.axis, bbC1, Vec3.comp, EF.div, EF.subK, EF.mul,
        EF.flt, EF.fle, EF.fmax, EF.fmin, min_def, max_def]
    simp only [h0, h1, h2]
    rfl
  rw [if_pos hby]
  have htri : Triangle.hit_point
      { p0 := Vec3.mk (-1) (-1) (-2), p1 := Vec3.mk 1 (-1) (-2)
        p2 := Vec3.mk 0 1 (-2), normal := Vec3.mk 0 0 1, material := m }
      { origin := Vec3.mk (0:ℝ) 0 0, direction := Vec3.mk 0 0 (-1) }
      (1 / 100000) = some (infoC1 m) := by
    rw [Triangle.hit_point]
    norm_num [Vec3.cross, Vec3.dot, f32Eps, Vec3.ext_iff, infoC1, abs, max_def]
  simp only [List.filterMap, htri, List.filter, firstMinByDist, minStep,
    closerHit, List.foldl]
  norm_num [infoC1, minStep, closerHit]

/-- A complete render configuration around `sceneC1`. -/
noncomputable def optsC1 (m : Material ℝ) : RenderOptions :=
  { camera := { look_dir := Vec3.mk 0 0 (-1) }
    scene := sceneC1 m
    image_width := 1280
    image_height := 720
    samples_per_pixel := 1
    max_bounces := 5
    lighting_model := LightingModel.Cosine
    light_intensity := 1
    background_color := Vec3.splat (1/10)
    gem_color := Vec3.splat 0
    gem_ri := 154/100
    threads := 1 }

/-- C1 counterexample: a ray whose nearest hit is a `Light` material with
emission `(1,1,1)`, traced with `max_bounces = 0`, returns black — not
the claimed raw emission — because the zero-budget early return precedes
the material dispatch. -/
theorem C1_light_hit_zero_bounces_black :
    (optsC1 (Material.Light (Vec3.splat 1))).trace rayC1 0 = some (Vec3.mk 0 0 0) ∧
    some (Vec3.mk (0:ℝ) 0 0) ≠ some (Vec3.splat (1:ℝ)) := by
  constructor
  · rw [RenderOptions.trace]
    have h := sceneC1_hit (Material.Light (Vec3.splat 1))
    rw [show (optsC1 (Material.Light (Vec3.splat 1))).scene =
        sceneC1 (Material.Light (Vec3.splat 1)) from rfl, h]
    show some ((0:ℝ) • (infoC1 (Material.Light (Vec3.splat 1))).material.color) =
      some (Vec3.mk 0 0 0)
    have : (0:ℝ) • (infoC1 (Material.Light (Vec3.splat 1))).material.color =
        Vec3.mk 0 0 0 := by
      rw [Vec3.ext_iff]
      norm_num [infoC1, Material.color, Vec3.splat]
    rw [this]
  · intro hcon
    have := Option.some.inj hcon
    rw [Vec3.ext_iff] at this
    norm_num [Vec3.splat] at this

/-- C1 witness: on the same concrete scene, the amended claim's two
conclusions — black at budget 0, raw emission at budget 1. -/
theorem C1_trace_zero_bounces_black_and_light_emission_witness :
    (optsC1 (Material.Light (Vec3.splat 1))).trace rayC1 0 = some (Vec3.mk 0 0 0) ∧
    (optsC1 (Material.Light (Vec3.splat 1))).trace rayC1 1 = some (Vec3.splat 1) := by
  have h := sceneC1_hit (Material.Light (Vec3.splat 1))
  have hc := C1_trace_zero_bounces_black_and_light_emission
    (optsC1 (Material.Light (Vec3.splat 1))) rayC1
    (infoC1 (Material.Light (Vec3.splat 1))) h
  exact ⟨hc.1, hc.2 (Vec3.splat 1) 1 rfl (by norm_num)⟩

/-- C7 counterexample: a ray whose nearest hit is a `Diffuse` material,
traced with bounce budget 0, silently returns black — it does not reach
the `todo!()` panic, contradicting the claim for that budget. -/
theorem C7_diffuse_hit_zero_bounces_silent :
    (optsC1 (Material.Diffuse (Vec3.splat 1))).trace rayC1 0 = some (Vec3.mk 0 0 0) ∧
    some (Vec3.mk (0:ℝ) 0 0) ≠ (none : Option (Vec3 ℝ)) := by
  constructor
  · rw [RenderOptions.trace]
    have h := sceneC1_hit (Material.Diffuse (Vec3.splat 1))
    rw [show (optsC1 (Material.Diffuse (Vec3.splat 1))).scene =
        sceneC1 (Material.Diffuse (Vec3.splat 1)) from rfl, h]
    show some ((0:ℝ) • (infoC1 (Material.Diffuse (Vec3.splat 1))).material.color) =
      some (Vec3.mk 0 0 0)
    have : (0:ℝ) • (infoC1 (Material.Diffuse (Vec3.splat 1))).material.color =
        Vec3.mk 0 0 0 := by
      rw [Vec3.ext_iff]
      norm_num [infoC1, Material.color, Vec3.splat]
    rw [this]
  · intro hcon
    exact Option.some_ne_none _ hcon

/-- C7 witness: on the same concrete scene with bounce budget 1, the
`Diffuse` hit does reach the unimplemented arm (the modelled panic). -/
theorem C7_trace_diffuse_unimplemented_witness :
    (optsC1 (Material.Diffuse (Vec3.splat 1))).trace rayC1 1 = none :=
  C7_trace_diffuse_unimplemented (optsC1 (Material.Diffuse (Vec3.splat 1))) rayC1
    (infoC1 (Material.Diffuse (Vec3.splat 1))) (Vec3.splat 1) 1
    (sceneC1_hit (Material.Diffuse (Vec3.splat 1))) rfl (by norm_num)

/-! ## C5 and C10: the streaming scheduler's pixel bookkeeping -/

theorem chunksOf_nil {α : Type} (n : ℕ) : chunksOf n ([] : List α) = [] := by
  rw [chunksOf]

theorem chunksOf_cons {α : Type} (n : ℕ) (hn : n ≠ 0) (x : α) (xs : List α) :
    chunksOf n (x :: xs) = (x :: xs.take (n - 1)) :: chunksOf n (xs.drop (n - 1)) := by
  rw [chunksOf, dif_neg hn]

/-- The chunks concatenate back to the original list. -/
theorem chunksOf_flatten {α : Type} (n : ℕ) (hn : 0 < n) (l : List α) :
    (chunksOf n l).flatten = l := by
  suffices h : ∀ len (l' : List α), l'.length = len → (chunksOf n l').flatten = l' by
    exact h l.length l rfl
  intro len
  induction len using Nat.strong_induction_on with
  | _ len ih =>
    intro l' hl
    match l' with
    | [] => rw [chunksOf_nil]; rfl
    | x :: xs =>
      rw [chunksOf_cons n (Nat.pos_iff_ne_zero.mp hn) x xs]
      rw [List.flatten_cons]
      have hlen : (xs.drop (n - 1)).length < len := by
        rw [← hl]
        simp only [List.length_drop, List.length_cons]
        omega
      rw [ih _ hlen _ rfl]
      rw [List.cons_append, List.take_append_drop]

/-- Every chunk is nonempty with at most `n` elements. -/
theorem chunksOf_mem_length {α : Type} (n : ℕ) (hn : 0 < n) (l : List α) :
    ∀ c ∈ chunksOf n l, c ≠ [] ∧ c.length ≤ n := by
  suffices h : ∀ len (l' : List α), l'.length = len →
      ∀ c ∈ chunksOf n l', c ≠ [] ∧ c.length ≤ n by
    exact h l.length l rfl
  intro len
  induction len using Nat.strong_induction_on with
  | _ len ih =>
    intro l' hl
    match l' with
    | [] => intro c hc; rw [chunksOf_nil] at hc; cases hc
    | x :: xs =>
      intro c hc
      rw [chunksOf_cons n (Nat.pos_iff_ne_zero.mp hn) x xs, List.mem_cons] at hc
      rcases hc with rfl | hc
      · refine ⟨by simp, ?_⟩
        simp only [List.length_cons, List.length_take]
        omega
      · have hlen : (xs.drop (n - 1)).length < len := by
          rw [← hl]
          simp only [List.length_drop, List.length_cons]
          omega
        exact ih _ hlen _ rfl c hc

/-- The number of chunks is `⌈length / n⌉`. -/
theorem chunksOf_length {α : Type} (n : ℕ) (hn : 0 < n) (l : List α) :
    (chunksOf n l).length = (l.length + n - 1) / n := by
  suffices h : ∀ len (l' : List α), l'.length = len →
      (chunksOf n l').length = (l'.length + n - 1) / n by
    exact h l.length l rfl
  intro len
  induction len using Nat.strong_induction_on with
  | _ len ih =>
    intro l' hl
    match l' with
    | [] =>
      rw [chunksOf_nil]
      simp only [List.length_nil]
      rw [Nat.div_eq_of_lt (by omega)]
    | x :: xs =>
      rw [chunksOf_cons n (Nat.pos_iff_ne_zero.mp hn) x xs]
      have hlen : (xs.drop (n - 1)).length < len := by
        rw [← hl]
        simp only [List.length_drop, List.length_cons]
        omega
      rw [List.length_cons, ih _ hlen _ rfl]
      simp only [List.length_drop, List.length_cons]
      rcases Nat.lt_or_ge xs.length (n - 1) with h | h
      · rw [show xs.length - (n - 1) = 0 from by omega]
        rw [Nat.div_eq_of_lt (show 0 + n - 1 < n from by omega)]
        rw [show xs.length + 1 + n - 1 = xs.length + n from by omega]
        rw [Nat.add_div_right _ hn]
        rw [Nat.div_eq_of_lt (show xs.length < n from by omega)]
      · rw [show xs.length - (n - 1) + n - 1 = xs.length from by omega]
        rw [show xs.length + 1 + n - 1 = xs.length + n from by omega]
        rw [Nat.add_div_right _ hn]

/-- Every chunk except possibly the last has exactly `n` elements. -/
theorem chunksOf_dropLast_length {α : Type} (n : ℕ) (hn : 0 < n) (l : List α) :
    ∀ c ∈ (chunksOf n l).dropLast, c.length = n := by
  suffices h : ∀ len (l' : List α), l'.length = len →
      ∀ c ∈ (chunksOf n l').dropLast, c.length = n by
    exact h l.length l rfl
  intro len
  induction len using Nat.strong_induction_on with
  | _ len ih =>
    intro l' hl
    match l' with
    | [] => intro c hc; rw [chunksOf_nil] at hc; cases hc
    | x :: xs =>
      intro c hc
      rw [chunksOf_cons n (Nat.pos_iff_ne_zero.mp hn) x xs] at hc
      have hlen : (xs.drop (n - 1)).length < len := by
        rw [← hl]
        simp only [List.length_drop, List.length_cons]
        omega
      rcases hrest : chunksOf n (xs.drop (n - 1)) with _ | ⟨r, rs⟩
      · rw [hrest] at hc
        simp at hc
      · rw [hrest, List.dropLast_cons_of_ne_nil (by simp), List.mem_cons] at hc
        rcases hc with rfl | hc
        · have hne : xs.drop (n - 1) ≠ [] := by
            intro hemp
            rw [hemp, chunksOf_nil] at hrest
            cases hrest
          have hxs : n - 1 ≤ xs.length := by
            by_contra hcon
            push_neg at hcon
            exact hne (List.drop_eq_nil_of_le (by omega))
          simp only [List.length_cons, List.length_take]
          omega
        · have := ih _ hlen _ rfl c
          rw [hrest] at this
          exact this hc

/-- C5 (amended): `render_streaming` builds the full pixel-index list
`0 .. width*height`, shuffles it (with an entropy-seeded RNG — the fixed
literal seed in the source seeds only the per-chunk jitter RNG, so the
shuffle is abstracted here as an arbitrary permutation), and
`pixels.chunks(self.threads)` partitions it into contiguous chunks of
*size* `threads` — every chunk full except possibly the last — giving
`⌈width*height / threads⌉` chunks, not `threads` chunks. -/
theorem C5_render_streaming_chunking (image_width image_height threads : ℕ)
    (shuffled : List ℕ) (ht : 0 < threads)
    (hp : shuffled.Perm (renderPixelList image_width image_height)) :
    (chunksOf threads shuffled).flatten = shuffled ∧
    (∀ c ∈ chunksOf threads shuffled, c ≠ [] ∧ c.length ≤ threads) ∧
    (∀ c ∈ (chunksOf threads shuffled).dropLast, c.length = threads) ∧
    (chunksOf threads shuffled).length =
      (image_width * image_height + threads - 1) / threads := by
  refine ⟨chunksOf_flatten threads ht shuffled,
    chunksOf_mem_length threads ht shuffled,
    chunksOf_dropLast_length threads ht shuffled, ?_⟩
  rw [chunksOf_length threads ht shuffled, hp.length_eq, renderPixelList,
    List.length_range]

/-- C5 witness: four pixels (2×2 image) over three threads give two
chunks `[0,1,2]`, `[3]` — sizes at most 3, flattening back, one full
chunk before the last, and `⌈4/3⌉ = 2` chunks. -/
theorem C5_render_streaming_chunking_witness :
    (chunksOf 3 [0, 1, 2, 3]).flatten = [0, 1, 2, 3] ∧
    (∀ c ∈ chunksOf 3 [0, 1, 2, 3], c ≠ [] ∧ c.length ≤ 3) ∧
    (∀ c ∈ (chunksOf 3 [0, 1, 2, 3]).dropLast, c.length = 3) ∧
    (chunksOf 3 [0, 1, 2, 3]).length = (2 * 2 + 3 - 1) / 3 :=
  C5_render_streaming_chunking 2 2 3 [0, 1, 2, 3] (by norm_num)
    (by rw [show renderPixelList 2 2 = [0, 1, 2, 3] from rfl])

/-- C5 counterexample: with 4 pixels (a 2×2 image) and `threads = 3`,
the slice `chunks(3)` yields 2 chunks, not the claimed 3 (`chunks(n)`
makes chunks of *size* n; the number of chunks is `⌈pixels/n⌉`). -/
theorem C5_chunk_count_is_not_threads :
    [0, 1, 2, 3].Perm (renderPixelList 2 2) ∧
    (chunksOf 3 [0, 1, 2, 3]).length = 2 ∧ (2 : ℕ) ≠ 3 := by
  refine ⟨by rw [show renderPixelList 2 2 = [0, 1, 2, 3] from rfl], ?_, by norm_num⟩
  rw [chunksOf_cons 3 (by norm_num) 0 [1, 2, 3]]
  rw [show ([1, 2, 3] : List ℕ).drop (3 - 1) = [3] from rfl]
  rw [chunksOf_cons 3 (by norm_num) 3 []]
  rw [show ([] : List ℕ).drop (3 - 1) = [] from rfl, chunksOf_nil]
  rfl

/-- The coordinates carried by a message (`Abort`, which no code path
constructs, maps to a dummy). -/
def msgCoords : RenderMsg → ℕ × ℕ
  | RenderMsg.Pixel x y _ => (x, y)
  | RenderMsg.Abort => (0, 0)

/-- C10: every message a full run of `render_streaming` emits is a
`Pixel` message (the `Abort` variant is never constructed), its
coordinates `x = i % width`, `y = i / width` satisfy `x < width` and
`y < height`, and no pixel coordinate is emitted twice. -/
theorem C10_messages_pixel_bounded_unique (image_width image_height threads : ℕ)
    (shuffled : List ℕ) (colorOf : ℕ → Vec3 ℝ) (ht : 0 < threads)
    (hp : shuffled.Perm (renderPixelList image_width image_height)) :
    (∀ msg ∈ renderMessages image_width threads shuffled colorOf,
      ∃ x y c, msg = RenderMsg.Pixel x y c ∧ x < image_width ∧ y < image_height) ∧
    ((renderMessages image_width threads shuffled colorOf).map msgCoords).Nodup := by
  have hmem : ∀ i ∈ shuffled, i < image_width * image_height := by
    intro i hi
    have := hp.mem_iff.mp hi
    rw [renderPixelList, List.mem_range] at this
    exact this
  have hflat : renderMessages image_width threads shuffled colorOf =
      shuffled.map fun i =>
        RenderMsg.Pixel (i % image_width) (i / image_width) (colorOf i) := by
    rw [renderMessages, List.flatMap_def, ← List.map_flatten,
      chunksOf_flatten threads ht shuffled]
  constructor
  · intro msg hmsg
    rw [hflat, List.mem_map] at hmsg
    obtain ⟨i, hi, rfl⟩ := hmsg
    have hiWH := hmem i hi
    have hW : 0 < image_width := by
      rcases Nat.eq_zero_or_pos image_width with h | h
      · rw [h, Nat.zero_mul] at hiWH
        cases Nat.not_lt_zero _ hiWH
      · exact h
    refine ⟨i % image_width, i / image_width, colorOf i, rfl, Nat.mod_lt _ hW, ?_⟩
    rw [Nat.div_lt_iff_lt_mul hW]
    calc i < image_width * image_height := hiWH
    _ = image_height * image_width := Nat.mul_comm _ _
  · rw [hflat, List.map_map]
    have hcomp : (msgCoords ∘ fun i =>
        RenderMsg.Pixel (i % image_width) (i / image_width) (colorOf i)) =
        fun i => (i % image_width, i / image_width) := rfl
    rw [hcomp]
    have hnd : shuffled.Nodup := hp.nodup_iff.mpr (by
      rw [renderPixelList]; exact List.nodup_range _)
    refine List.Nodup.map_on ?_ hnd
    intro i hi j hj hij
    have h1 : i % image_width = j % image_width := congrArg Prod.fst hij
    have h2 : i / image_width = j / image_width := congrArg Prod.snd hij
    calc i = image_width * (i / image_width) + i % image_width :=
      (Nat.div_add_mod i image_width).symm
    _ = image_width * (j / image_width) + j % image_width := by rw [h1, h2]
    _ = j := Nat.div_add_mod j image_width

/-- C10 witness: a 2×2 image, one thread, a concrete shuffle. -/
theorem C10_messages_pixel_bounded_unique_witness :
    (∀ msg ∈ renderMessages 2 1 [2, 0, 3, 1] (fun _ => Vec3.splat 0),
      ∃ x y c, msg = RenderMsg.Pixel x y c ∧ x < 2 ∧ y < 2) ∧
    ((renderMessages 2 1 [2, 0, 3, 1] (fun _ => Vec3.splat 0)).map msgCoords).Nodup :=
  C10_messages_pixel_bounded_unique 2 2 1 [2, 0, 3, 1] (fun _ => Vec3.splat 0)
    (by norm_num)
    (by rw [show renderPixelList 2 2 = [0, 1, 2, 3] from rfl]; decide)

/-! ## C8: the ray-AABB slab test -/

namespace EF

variable {K : Type} [LinearOrderedField K]

theorem flt_fin_right {x : EF K} {t : K} (h : flt x (fin t) = true) :
    x = ninf ∨ ∃ a, x = fin a ∧ a < t := by
  cases x with
  | nan => simp [flt] at h
  | pinf => simp [flt] at h
  | ninf => exact Or.inl rfl
  | fin a =>
    refine Or.inr ⟨a, rfl, ?_⟩
    simpa [flt] using h

theorem flt_fin_left {x : EF K} {t : K} (h : flt (fin t) x = true) :
    x = pinf ∨ ∃ b, x = fin b ∧ t < b := by
  cases x with
  | nan => simp [flt] at h
  | pinf => exact Or.inl rfl
  | ninf => simp [flt] at h
  | fin b =>
    refine Or.inr ⟨b, rfl, ?_⟩
    simpa [flt] using h

theorem flt_fmax_fin {mn : EF K} {t v : K} (h : flt mn (fin t) = true)
    (hv : v < t) : flt (fmax mn (fin v)) (fin t) = true := by
  rcases flt_fin_right h with rfl | ⟨a, rfl, ha⟩
  · simpa [fmax, flt] using hv
  · simp [fmax, flt]
    exact ⟨ha, hv⟩

theorem flt_fmin_fin {mx : EF K} {t v : K} (h : flt (fin t) mx = true)
    (hv : t < v) : flt (fin t) (fmin mx (fin v)) = true := by
  rcases flt_fin_left h with rfl | ⟨b, rfl, hb⟩
  · simpa [fmin, flt] using hv
  · simp [fmin, flt]
    exact ⟨hb, hv⟩

theorem fle_false_of_bracket {A B : EF K} {t : K} (hA : flt A (fin t) = true)
    (hB : flt (fin t) B = true) : fle B A = false := by
  rcases flt_fin_right hA with rfl | ⟨a, rfl, ha⟩ <;>
    rcases flt_fin_left hB with rfl | ⟨b, rfl, hb⟩ <;>
    simp [fle]
  linarith

theorem fmax_ninf_of_flt {mn : EF K} {t : K} (h : flt mn (fin t) = true) :
    fmax mn ninf = mn := by
  rcases flt_fin_right h with rfl | ⟨a, rfl, _⟩ <;> rfl

theorem fmin_pinf_of_flt {mx : EF K} {t : K} (h : flt (fin t) mx = true) :
    fmin mx pinf = mx := by
  rcases flt_fin_left h with rfl | ⟨b, rfl, _⟩ <;> rfl

end EF

/-- Strict interval invariant step of the slab loop: if the running
interval strictly brackets a parameter `t` at which the ray meets the
strict interior of the axis range, the axis test succeeds and the
tightened interval still strictly brackets `t`. -/
theorem slabCheck_center {K : Type} [LinearOrderedField K] (lo hi o d t : K)
    (h1 : lo < o + t * d) (h2 : o + t * d < hi) (mn mx : EF K)
    (hmn : EF.flt mn (EF.fin t) = true) (hmx : EF.flt (EF.fin t) mx = true) :
    ∃ mn' mx',
      BoundingBox.slabCheck (EF.fin lo, EF.fin hi) o d (mn, mx) = some (mn', mx') ∧
      EF.flt mn' (EF.fin t) = true ∧ EF.flt (EF.fin t) mx' = true := by
  rcases lt_trichotomy d 0 with hd | hd | hd
  · -- d < 0: negative inverse direction, entry/exit swapped
    have hdne : d ≠ 0 := ne_of_lt hd
    have ht0 : t < (lo - o) * d⁻¹ := by
      rw [← div_eq_mul_inv, lt_div_iff_of_neg hd]
      nlinarith
    have ht1 : (hi - o) * d⁻¹ < t := by
      rw [← div_eq_mul_inv, div_lt_iff_of_neg hd]
      nlinarith
    have hmn' := EF.flt_fmax_fin hmn ht1
    have hmx' := EF.flt_fmin_fin hmx ht0
    have hcond := EF.fle_false_of_bracket hmn' hmx'
    refine ⟨EF.fmax mn (EF.fin ((hi - o) * d⁻¹)),
      EF.fmin mx (EF.fin ((lo - o) * d⁻¹)), ?_, hmn', hmx'⟩
    simp [BoundingBox.slabCheck, EF.div, EF.subK, EF.mul, EF.flt, hdne, hd,
      hcond]
  · -- d = 0: the ray is parallel to the slab, origin strictly inside
    subst hd
    have ho1 : lo < o := by nlinarith
    have ho2 : o < hi := by nlinarith
    have hmneq := EF.fmax_ninf_of_flt hmn
    have hmxeq := EF.fmin_pinf_of_flt hmx
    have hcond := EF.fle_false_of_bracket hmn hmx
    refine ⟨mn, mx, ?_, hmn, hmx⟩
    simp [BoundingBox.slabCheck, EF.div, EF.subK, EF.mul, EF.flt, ho1, ho2,
      asymm ho1, asymm ho2, hmneq, hmxeq, hcond]
  · -- d > 0: positive inverse direction
    have hdne : d ≠ 0 := ne_of_gt hd
    have ht0 : (lo - o) * d⁻¹ < t := by
      rw [← div_eq_mul_inv, div_lt_iff hd]
      nlinarith
    have ht1 : t < (hi - o) * d⁻¹ := by
      rw [← div_eq_mul_inv, lt_div_iff hd]
      nlinarith
    have hmn' := EF.flt_fmax_fin hmn ht0
    have hmx' := EF.flt_fmin_fin hmx ht1
    have hcond := EF.fle_false_of_bracket hmn' hmx'
    refine ⟨EF.fmax mn (EF.fin ((lo - o) * d⁻¹)),
      EF.fmin mx (EF.fin ((hi - o) * d⁻¹)), ?_, hmn', hmx'⟩
    simp [BoundingBox.slabCheck, EF.div, EF.subK, EF.mul, EF.flt, hdne,
      asymm hd, hcond]

namespace EF

variable {K : Type} [LinearOrderedField K]

theorem neg_shape_ne_nan {mn : EF K}
    (h : mn = ninf ∨ ∃ a, mn = fin a ∧ a < 0) : mn ≠ nan := by
  rcases h with rfl | ⟨a, rfl, _⟩ <;> intro hcon <;> cases hcon

theorem fmax_neg_shape {mn : EF K} {v : K}
    (h : mn = ninf ∨ ∃ a, mn = fin a ∧ a < 0) (hv : v < 0) :
    fmax mn (fin v) = EF.ninf ∨ ∃ a, fmax mn (fin v) = fin a ∧ a < 0 := by
  rcases h with rfl | ⟨a, rfl, ha⟩
  · exact Or.inr ⟨v, rfl, hv⟩
  · exact Or.inr ⟨max a v, rfl, max_lt ha hv⟩

theorem fmin_fin_ne_nan {mx : EF K} (h : mx ≠ nan) (v : K) :
    fmin mx (fin v) ≠ nan := by
  cases mx with
  | nan => exact absurd rfl h
  | pinf => intro hcon; cases hcon
  | ninf => intro hcon; cases hcon
  | fin b => intro hcon; cases hcon

theorem fmax_ninf_of_ne_nan {mn : EF K} (h : mn ≠ nan) : fmax mn ninf = mn := by
  cases mn with
  | nan => exact absurd rfl h
  | pinf => rfl
  | ninf => rfl
  | fin a => rfl

theorem fmax_pinf_of_ne_nan {mn : EF K} (h : mn ≠ nan) : fmax mn pinf = pinf := by
  cases mn with
  | nan => exact absurd rfl h
  | pinf => rfl
  | ninf => rfl
  | fin a => rfl

theorem fmin_ninf_of_ne_nan {mx : EF K} (h : mx ≠ nan) : fmin mx ninf = ninf := by
  cases mx with
  | nan => exact absurd rfl h
  | pinf => rfl
  | ninf => rfl
  | fin b => rfl

theorem fle_pinf_of_ne_nan {mx : EF K} (h : mx ≠ nan) : fle mx pinf = true := by
  cases mx with
  | nan => exact absurd rfl h
  | pinf => rfl
  | ninf => rfl
  | fin b => rfl

theorem fle_ninf_left_of_ne_nan {mn : EF K} (h : mn ≠ nan) : fle ninf mn = true := by
  cases mn with
  | nan => exact absurd rfl h
  | pinf => rfl
  | ninf => rfl
  | fin a => rfl

end EF

/-- Away-from-the-box invariant step of the slab loop: on an axis where
the origin lies strictly beyond the range and the direction does not
approach it, the axis test either empties the interval (miss) or leaves
a running entry parameter that is `-inf` or strictly negative. -/
theorem slabCheck_away {K : Type} [LinearOrderedField K] (lo hi o d : K)
    (hlohi : lo < hi)
    (haway : (hi < o ∧ 0 ≤ d) ∨ (o < lo ∧ d ≤ 0)) (mn mx : EF K)
    (hmn : mn = EF.ninf ∨ ∃ a, mn = EF.fin a ∧ a < 0) (hmx : mx ≠ EF.nan) :
    BoundingBox.slabCheck (EF.fin lo, EF.fin hi) o d (mn, mx) = none ∨
    ∃ mn' mx',
      BoundingBox.slabCheck (EF.fin lo, EF.fin hi) o d (mn, mx) = some (mn', mx') ∧
      (mn' = EF.ninf ∨ ∃ a, mn' = EF.fin a ∧ a < 0) ∧ mx' ≠ EF.nan := by
  have hmnn : mn ≠ EF.nan := EF.neg_shape_ne_nan hmn
  rcases haway with ⟨ho, hd⟩ | ⟨ho, hd⟩
  · -- origin beyond the upper bound, direction nonnegative
    rcases eq_or_lt_of_le hd with hd0 | hdpos
    · -- d = 0: both slab parameters are -inf, the interval empties
      subst hd0
      left
      have hl : lo < o := lt_trans hlohi ho
      simp [BoundingBox.slabCheck, EF.div, EF.subK, EF.mul, EF.flt, hl, ho,
        asymm hl, asymm ho, EF.fmax_ninf_of_ne_nan hmnn,
        EF.fmin_ninf_of_ne_nan hmx, EF.fle_ninf_left_of_ne_nan hmnn]
    · -- d > 0: both slab parameters are strictly negative
      have hdne : d ≠ 0 := ne_of_gt hdpos
      have hv0 : (lo - o) * d⁻¹ < 0 :=
        mul_neg_of_neg_of_pos (by nlinarith) (inv_pos.mpr hdpos)
      have hv1 : (hi - o) * d⁻¹ < 0 :=
        mul_neg_of_neg_of_pos (by nlinarith) (inv_pos.mpr hdpos)
      have hmn' := EF.fmax_neg_shape hmn hv0
      have hmx' := EF.fmin_fin_ne_nan hmx ((hi - o) * d⁻¹)
      cases hfle : EF.fle (EF.fmin mx (EF.fin ((hi - o) * d⁻¹)))
          (EF.fmax mn (EF.fin ((lo - o) * d⁻¹))) with
      | true =>
        left
        simp [BoundingBox.slabCheck, EF.div, EF.subK, EF.mul, EF.flt, hdne,
          asymm hdpos, hfle]
      | false =>
        right
        refine ⟨EF.fmax mn (EF.fin ((lo - o) * d⁻¹)),
          EF.fmin mx (EF.fin ((hi - o) * d⁻¹)), ?_, hmn', hmx'⟩
        simp [BoundingBox.slabCheck, EF.div, EF.subK, EF.mul, EF.flt, hdne,
          asymm hdpos, hfle]
  · -- origin before the lower bound, direction nonpositive
    rcases eq_or_lt_of_le hd with hd0 | hdneg
    · -- d = 0: both slab parameters are +inf, the interval empties
      subst hd0
      left
      have hh : o < hi := lt_trans ho hlohi
      simp [BoundingBox.slabCheck, EF.div, EF.subK, EF.mul, EF.flt, ho, hh,
        asymm ho, asymm hh, EF.fmax_pinf_of_ne_nan hmnn,
        EF.fmin_pinf_of_flt, EF.fle_pinf_of_ne_nan hmx]
      cases hmxv : mx with
      | nan => exact absurd hmxv hmx
      | pinf => rfl
      | ninf => rfl
      | fin b => rfl
    · -- d < 0: the swapped entry parameter is strictly negative
      have hdne : d ≠ 0 := ne_of_lt hdneg
      have hv1 : (hi - o) * d⁻¹ < 0 :=
        mul_neg_of_pos_of_neg (by nlinarith) (inv_neg''.mpr hdneg)
      have hmn' := EF.fmax_neg_shape hmn hv1
      have hmx' := EF.fmin_fin_ne_nan hmx ((lo - o) * d⁻¹)
      cases hfle : EF.fle (EF.fmin mx (EF.fin ((lo - o) * d⁻¹)))
          (EF.fmax mn (EF.fin ((hi - o) * d⁻¹))) with
      | true =>
        left
        simp [BoundingBox.slabCheck, EF.div, EF.subK, EF.mul, EF.flt, hdne,
          hdneg, hfle]
      | false =>
        right
        refine ⟨EF.fmax mn (EF.fin ((hi - o) * d⁻¹)),
          EF.fmin mx (EF.fin ((lo - o) * d⁻¹)), ?_, hmn', hmx'⟩
        simp [BoundingBox.slabCheck, EF.div, EF.subK, EF.mul, EF.flt, hdne,
          hdneg, hfle]

/-- A bounding box with finite axis ranges — the shape `Mesh::from_tris`
produces for every nonempty triangle list (its widening guarantees each
range has positive extent). -/
def mkFinBox {K : Type} [LinearOrderedField K] (lox hix loy hiy loz hiz : K) :
    BoundingBox K :=
  { range_x := (EF.fin lox, EF.fin hix)
    range_y := (EF.fin loy, EF.fin hiy)
    range_z := (EF.fin loz, EF.fin hiz) }

/-- C8 (amended): for every finite box with positive extent on each axis,
(1) the slab test reports a hit for every ray whose supporting line
passes through the box center (zero direction components flow through
the `±inf` result of the IEEE division with no special case), and
(2) for every ray aimed strictly outside all three axis ranges — origin
strictly beyond the range, direction pointing away or parallel on every
axis — the test is *not* guaranteed to miss: being orientation-blind it
either misses or reports an intersection strictly behind the origin
(negative entry distance).  An actual miss for all such rays is refuted
by the counterexample. -/
theorem C8_slab_center_hits_and_away_never_forward {K : Type}
    [LinearOrderedField K] (lox hix loy hiy loz hiz : K)
    (hx : lox < hix) (hy : loy < hiy) (hz : loz < hiz) (ray : Ray K) :
    ((∃ t : K, ray.origin.x + t * ray.direction.x = (lox + hix) / 2 ∧
        ray.origin.y + t * ray.direction.y = (loy + hiy) / 2 ∧
        ray.origin.z + t * ray.direction.z = (loz + hiz) / 2) →
      ((mkFinBox lox hix loy hiy loz hiz).hitT ray).isSome = true) ∧
    (((hix < ray.origin.x ∧ 0 ≤ ray.direction.x) ∨
        (ray.origin.x < lox ∧ ray.direction.x ≤ 0)) →
      ((hiy < ray.origin.y ∧ 0 ≤ ray.direction.y) ∨
        (ray.origin.y < loy ∧ ray.direction.y ≤ 0)) →
      ((hiz < ray.origin.z ∧ 0 ≤ ray.direction.z) ∨
        (ray.origin.z < loz ∧ ray.direction.z ≤ 0)) →
      (mkFinBox lox hix loy hiy loz hiz).hitT ray = none ∨
      ∃ r, (mkFinBox lox hix loy hiy loz hiz).hitT ray = some r ∧
        EF.flt r (EF.fin 0) = true) := by
  constructor
  · rintro ⟨t, htx, hty, htz⟩
    obtain ⟨mn1, mx1, he1, hq1, hr1⟩ :=
      slabCheck_center lox hix ray.origin.x ray.direction.x t
        (by rw [htx]; linarith) (by rw [htx]; linarith) EF.ninf EF.pinf rfl rfl
    obtain ⟨mn2, mx2, he2, hq2, hr2⟩ :=
      slabCheck_center loy hiy ray.origin.y ray.direction.y t
        (by rw [hty]; linarith) (by rw [hty]; linarith) mn1 mx1 hq1 hr1
    obtain ⟨mn3, mx3, he3, hq3, hr3⟩ :=
      slabCheck_center loz hiz ray.origin.z ray.direction.z t
        (by rw [htz]; linarith) (by rw [htz]; linarith) mn2 mx2 hq2 hr2
    simp only [BoundingBox.hitT, BoundingBox.slabAxis, BoundingBox.axis,
      Vec3.comp, mkFinBox, he1, he2, he3]
    rfl
  · intro hax hay haz
    rcases slabCheck_away lox hix ray.origin.x ray.direction.x hx hax
        EF.ninf EF.pinf (Or.inl rfl) (by intro hcon; cases hcon) with he1 | he1
    · left
      simp only [BoundingBox.hitT, BoundingBox.slabAxis, BoundingBox.axis,
        Vec3.comp, mkFinBox, he1]
    · obtain ⟨mn1, mx1, he1, hq1, hr1⟩ := he1
      rcases slabCheck_away loy hiy ray.origin.y ray.direction.y hy hay
          mn1 mx1 hq1 hr1 with he2 | he2
      · left
        simp only [BoundingBox.hitT, BoundingBox.slabAxis, BoundingBox.axis,
          Vec3.comp, mkFinBox, he1, he2]
      · obtain ⟨mn2, mx2, he2, hq2, hr2⟩ := he2
        rcases slabCheck_away loz hiz ray.origin.z ray.direction.z hz haz
            mn2 mx2 hq2 hr2 with he3 | he3
        · left
          simp only [BoundingBox.hitT, BoundingBox.slabAxis, BoundingBox.axis,
            Vec3.comp, mkFinBox, he1, he2, he3]
        · obtain ⟨mn3, mx3, he3, hq3, hr3⟩ := he3
          right
          refine ⟨mn3, ?_, ?_⟩
          · simp only [BoundingBox.hitT, BoundingBox.slabAxis, BoundingBox.axis,
              Vec3.comp, mkFinBox, he1, he2, he3]
          · rcases hq3 with rfl | ⟨a, rfl, ha⟩
            · rfl
            · simpa [EF.flt] using ha

/-- C8 counterexample: the unit-direction ray from `(7/2, 9/2, 25/2)`
along `(3/13, 4/13, 12/13)` is aimed strictly outside all three axis
ranges of the box `[0,1]³` (origin beyond every range, all direction
components pointing away), yet the slab test reports an intersection —
at the negative entry distance `-325/24`, because its backward extension
passes through the box and the test ignores ray orientation. -/
theorem C8_away_ray_reports_hit :
    (((1:ℚ) < 7/2 ∧ (0:ℚ) ≤ 3/13) ∧ ((1:ℚ) < 9/2 ∧ (0:ℚ) ≤ 4/13) ∧
      ((1:ℚ) < 25/2 ∧ (0:ℚ) ≤ 12/13)) ∧
    BoundingBox.hitT (mkFinBox (0:ℚ) 1 0 1 0 1)
      { origin := Vec3.mk (7/2) (9/2) (25/2)
        direction := Vec3.mk (3/13) (4/13) (12/13) } = some (EF.fin (-325/24)) := by
  refine ⟨⟨⟨by norm_num, by norm_num⟩, ⟨by norm_num, by norm_num⟩,
    ⟨by norm_num, by norm_num⟩⟩, ?_⟩
  have h0 : BoundingBox.slabCheck (EF.fin (0:ℚ), EF.fin 1) (7/2) (3/13)
      (EF.ninf, EF.pinf) = some (EF.fin (-91/6), EF.fin (-65/6)) := by
    rw [BoundingBox.slabCheck]
    norm_num [EF.div, EF.subK, EF.mul, EF.flt, EF.fle, EF.fmax, EF.fmin,
      min_def, max_def]
  have h1 : BoundingBox.slabCheck (EF.fin (0:ℚ), EF.fin 1) (9/2) (4/13)
      (EF.fin (-91/6), EF.fin (-65/6)) =
      some (EF.fin (-117/8), EF.fin (-91/8)) := by
    rw [BoundingBox.slabCheck]
    norm_num [EF.div, EF.subK, EF.mul, EF.flt, EF.fle, EF.fmax, EF.fmin,
      min_def, max_def]
  have h2 : BoundingBox.slabCheck (EF.fin (0:ℚ), EF.fin 1) (25/2) (12/13)
      (EF.fin (-117/8), EF.fin (-91/8)) =
      some (EF.fin (-325/24), EF.fin (-299/24)) := by
    rw [BoundingBox.slabCheck]
    norm_num [EF.div, EF.subK, EF.mul, EF.flt, EF.fle, EF.fmax, EF.fmin,
      min_def, max_def]
  simp only [BoundingBox.hitT, BoundingBox.slabAxis, BoundingBox.axis,
    Vec3.comp, mkFinBox, Vec3.mk_x, Vec3.mk_y, Vec3.mk_z, h0, h1, h2]

/-- C8 witness: a ray through the center of `[0,2]³` hits; the
counterexample's outward-aimed ray yields no forward hit (its reported
entry distance is negative). -/
theorem C8_slab_center_hits_and_away_never_forward_witness :
    ((mkFinBox (0:ℚ) 2 0 2 0 2).hitT
      { origin := Vec3.mk 1 1 1, direction := Vec3.mk 1 0 0 }).isSome = true ∧
    ((mkFinBox (0:ℚ) 1 0 1 0 1).hitT
        { origin := Vec3.mk (7/2) (9/2) (25/2)
          direction := Vec3.mk (3/13) (4/13) (12/13) } = none ∨
      ∃ r, (mkFinBox (0:ℚ) 1 0 1 0 1).hitT
          { origin := Vec3.mk (7/2) (9/2) (25/2)
            direction := Vec3.mk (3/13) (4/13) (12/13) } = some r ∧
        EF.flt r (EF.fin 0) = true) := by
  constructor
  · exact (C8_slab_center_hits_and_away_never_forward (0:ℚ) 2 0 2 0 2
      (by norm_num) (by norm_num) (by norm_num)
      { origin := Vec3.mk 1 1 1, direction := Vec3.mk 1 0 0 }).1
      ⟨0, by norm_num, by norm_num, by norm_num⟩
  · exact (C8_slab_center_hits_and_away_never_forward (0:ℚ) 1 0 1 0 1
      (by norm_num) (by norm_num) (by norm_num)
      { origin := Vec3.mk (7/2) (9/2) (25/2)
        direction := Vec3.mk (3/13) (4/13) (12/13) }).2
      (Or.inl ⟨by norm_num, by norm_num⟩)
      (Or.inl ⟨by norm_num, by norm_num⟩)
      (Or.inl ⟨by norm_num, by norm_num⟩)

/-! ## C2: scene nearest hit versus the brute-force linear scan -/

/-- Modelled from the spec's words (the refinement reference for C2):
"the triangle hit with the lowest distance strictly greater than the
minimum distance over all triangles of all meshes, or None when no
triangle is hit", first hit winning ties in iteration order. -/
def bruteForceHit {K : Type} [LinearOrderedField K] (scene : Scene K)
    (ray : Ray K) (min_distance : K) : Option (HitInfo K) :=
  firstMinByDist
    (scene.meshes.flatMap fun m =>
      m.triangles.filterMap fun t => t.hit_point ray min_distance)

/-- Every hit `Triangle::hit_point` accepts lies strictly beyond the
caller's minimum distance (the final guard of Möller-Trumbore). -/
theorem Triangle.hit_point_min_lt {K : Type} [LinearOrderedField K]
    (t : Triangle K) (ray : Ray K) (md : K) (info : HitInfo K)
    (h : t.hit_point ray md = some info) : md < info.ray_distance := by
  simp only [Triangle.hit_point] at h
  split_ifs at h with h1 h2 h3 h4 <;>
    first
    | (injection h with h'
       subst h'
       exact h4)
    | cases h

theorem closerHit_none_right {K : Type} [LinearOrderedField K]
    (acc : Option (HitInfo K)) : closerHit acc none = acc := rfl

theorem closerHit_none_left {K : Type} [LinearOrderedField K]
    (r : Option (HitInfo K)) : closerHit none r = r := by
  cases r <;> rfl

/-- Distributivity of the scene-level combination over the mesh-level
minimum fold step: combining an accumulator with a mesh minimum updated
by one more hit equals updating the combination by that hit. -/
theorem closerHit_minStep {K : Type} [LinearOrderedField K]
    (a b : Option (HitInfo K)) (h : HitInfo K) :
    closerHit a (minStep b h) = minStep (closerHit a b) h := by
  cases a with
  | none => rw [closerHit_none_left, closerHit_none_left]
  | some av =>
    cases b with
    | none => rfl
    | some bv =>
      have em1 : minStep (some bv) h =
          if h.ray_distance < bv.ray_distance then some h else some bv := rfl
      have em2 : ∀ x : HitInfo K, minStep (some x) h =
          if h.ray_distance < x.ray_distance then some h else some x :=
        fun x => rfl
      have ec : ∀ x y : HitInfo K, closerHit (some x) (some y) =
          if y.ray_distance < x.ray_distance then some y else some x :=
        fun x y => rfl
      by_cases hc1 : h.ray_distance < bv.ray_distance
      · by_cases hc2 : bv.ray_distance < av.ray_distance
        · rw [em1, if_pos hc1, ec, ec, if_pos (lt_trans hc1 hc2), if_pos hc2,
            em2, if_pos hc1]
        · rw [em1, if_pos hc1, ec, ec, if_neg hc2, em2]
      · by_cases hc2 : bv.ray_distance < av.ray_distance
        · rw [em1, if_neg hc1, ec, if_pos hc2, em2, if_neg hc1]
        · rw [em1, if_neg hc1, ec, if_neg hc2, em2,
            if_neg (fun hcon => hc1 (lt_of_lt_of_le hcon (not_lt.mp hc2)))]

theorem closerHit_foldl {K : Type} [LinearOrderedField K]
    (hits : List (HitInfo K)) :
    ∀ (a b : Option (HitInfo K)),
      closerHit a (hits.foldl minStep b) = hits.foldl minStep (closerHit a b) := by
  induction hits with
  | nil => intro a b; rfl
  | cons h rest ih =>
    intro a b
    rw [List.foldl_cons, List.foldl_cons, ih, closerHit_minStep]

/-- With the bounding-box pre-test passing, `Mesh::hit_point` is exactly
the first minimum of the accepted triangle hits (the `>= min_distance`
re-filter is redundant because every accepted hit is already strictly
beyond it). -/
theorem Mesh.hit_point_of_box {K : Type} [LinearOrderedField K]
    (m : Mesh K) (ray : Ray K) (md : K)
    (hbox : m.bounding_box.hit_by ray md = true) :
    m.hit_point ray md =
      firstMinByDist (m.triangles.filterMap fun t => t.hit_point ray md) := by
  rw [Mesh.hit_point, if_pos hbox]
  congr 1
  rw [List.filter_eq_self]
  intro info hinfo
  rw [List.mem_filterMap] at hinfo
  obtain ⟨t, _, ht⟩ := hinfo
  exact decide_eq_true (le_of_lt (Triangle.hit_point_min_lt t ray md info ht))

/-- Folding the scene loop over a list of meshes whose box pre-tests all
pass equals folding the hit minimum over their concatenated accepted
triangle hits. -/
theorem scene_foldl_eq_brute {K : Type} [LinearOrderedField K]
    (ray : Ray K) (md : K) :
    ∀ (ms : List (Mesh K)) (acc : Option (HitInfo K)),
      (∀ m ∈ ms, m.bounding_box.hit_by ray md = true) →
      List.foldl (fun acc m => closerHit acc (m.hit_point ray md)) acc ms =
        List.foldl minStep acc
          (ms.flatMap fun m => m.triangles.filterMap fun t => t.hit_point ray md) := by
  intro ms
  induction ms with
  | nil => intro acc _; rfl
  | cons m rest ih =>
    intro acc hbox
    rw [List.foldl_cons, List.flatMap_cons, List.foldl_append]
    rw [Mesh.hit_point_of_box m ray md (hbox m (List.mem_cons_self m rest)),
      firstMinByDist, closerHit_foldl, closerHit_none_right]
    exact ih _ fun x hx => hbox x (List.mem_cons_of_mem m hx)

/-- C2 (amended): whenever the bounding-box pre-test passes for every
mesh of the scene, `Scene::hit_point` returns exactly the brute-force
linear-scan nearest hit over all triangles of all meshes; in particular,
of two triangles occluding each other along a ray the nearer one (lowest
accepted distance) is returned.  Unconditionally the claim is false: the
pre-test can reject a ray that touches the box tangentially while a
triangle hit lies exactly on the box boundary — see the
counterexample. -/
theorem C2_scene_hit_eq_bruteforce_of_box_pass {K : Type}
    [LinearOrderedField K] (scene : Scene K) (ray : Ray K) (md : K)
    (hbox : ∀ m ∈ scene.meshes, m.bounding_box.hit_by ray md = true) :
    Scene.hit_point scene ray md = bruteForceHit scene ray md := by
  rw [Scene.hit_point, bruteForceHit, firstMinByDist]
  exact scene_foldl_eq_brute ray md scene.meshes none hbox

/-- A triangle with a vertex at the corner of its own bounding box.  Its
stored normal is what `Triangle::new` computes: the edge cross product
`(1,0,2) × (0,1,2) = (-2,-2,1)` has length 3, so the normalised normal
is `(-2/3, -2/3, 1/3)` — exactly representable over `ℚ`. -/
def triC2 : Triangle ℚ :=
  { p0 := Vec3.mk 0 0 0, p1 := Vec3.mk 1 0 2, p2 := Vec3.mk 0 1 2
    normal := Vec3.mk (-2/3) (-2/3) (1/3)
    material := Material.Light (Vec3.splat 1) }

/-- The one-triangle mesh around `triC2`, built through `Mesh::from_tris`. -/
def meshC2 : Mesh ℚ := Mesh.from_tris (Vec3.mk 0 0 0) [triC2]

def sceneC2 : Scene ℚ := Scene.new [meshC2]

/-- A unit-direction ray (`Ray::new((-4,3,0), (4,-3,0))`) that touches
the mesh bounding box only at its corner `(0,0,0)` — exactly where the
triangle has a vertex. -/
def rayC2 : Ray ℚ :=
  { origin := Vec3.mk (-4) 3 0, direction := Vec3.mk (4/5) (-3/5) 0 }

theorem meshC2_eq :
    meshC2 =
      { origin := Vec3.mk 0 0 0
        triangles := [triC2]
        bounding_box :=
          { range_x := (EF.fin 0, EF.fin 1)
            range_y := (EF.fin 0, EF.fin 1)
            range_z := (EF.fin 0, EF.fin 2) } } := by
  rw [meshC2, Mesh.from_tris]
  simp only [triC2, Triangle.translate, List.map, List.flatMap, List.foldl,
    List.flatten, List.append_nil, EF.fmin, EF.fmax, EF.addK]
  norm_num [Vec3.ext_iff, min_def, max_def]

/-- The slab pre-test rejects `rayC2`: on the y axis the running interval
degenerates to the single parameter 5 and the non-strict `max_t <=
min_t` comparison reports a miss. -/
theorem meshC2_box_rejects :
    meshC2.bounding_box.hit_by rayC2 (1 / 100000) = false := by
  rw [meshC2_eq]
  rw [BoundingBox.hit_by, BoundingBox.hitT]
  have h0 : BoundingBox.slabAxis
      { range_x := (EF.fin 0, EF.fin 1), range_y := (EF.fin 0, EF.fin 1)
        range_z := (EF.fin (0:ℚ), EF.fin 2) } rayC2 0 (EF.ninf, EF.pinf) =
      some (EF.fin 5, EF.fin (25/4)) := by
    rw [BoundingBox.slabAxis, BoundingBox.slabCheck]
    norm_num [BoundingBox.axis, rayC2, Vec3.comp, EF.div, EF.subK, EF.mul,
      EF.flt, EF.fle, EF.fmax, EF.fmin, min_def, max_def]
  have h1 : BoundingBox.slabAxis
      { range_x := (EF.fin 0, EF.fin 1), range_y := (EF.fin 0, EF.fin 1)
        range_z := (EF.fin (0:ℚ), EF.fin 2) } rayC2 1 (EF.fin 5, EF.fin (25/4)) =
      none := by
    rw [BoundingBox.slabAxis, BoundingBox.slabCheck]
    norm_num [BoundingBox.axis, rayC2, Vec3.comp, EF.div, EF.subK, EF.mul,
      EF.flt, EF.fle, EF.fmax, EF.fmin, min_def, max_def]
  simp only [h0, h1]
  rfl

/-- The brute-force scan does accept a hit for `rayC2`: the triangle
vertex `(0,0,0)` at parametric distance 5 (barycentric `u = v = 0`). -/
def infoC2 : HitInfo ℚ :=
  { position := Vec3.mk 0 0 0, normal := Vec3.mk (-2/3) (-2/3) (1/3)
    ray_distance := 5, front_face := true
    material := Material.Light (Vec3.splat 1) }

theorem triC2_hit :
    triC2.hit_point rayC2 (1 / 100000) = some infoC2 := by
  rw [Triangle.hit_point]
  norm_num [triC2, rayC2, infoC2, Vec3.cross, Vec3.dot, f32Eps, Vec3.ext_iff,
    abs, max_def]

/-- C2 counterexample: for the corner-tangent ray, `Scene::hit_point`
(with the bounding-box pre-test) returns no hit, while the brute-force
linear scan over all triangles returns the vertex hit at distance 5 —
the two disagree, refuting the unconditional equivalence. -/
theorem C2_box_pretest_misses_tangent_hit :
    Scene.hit_point sceneC2 rayC2 (1 / 100000) = none ∧
    bruteForceHit sceneC2 rayC2 (1 / 100000) = some infoC2 ∧
    some infoC2 ≠ (none : Option (HitInfo ℚ)) := by
  refine ⟨?_, ?_, Option.some_ne_none _⟩
  · rw [sceneC2, Scene.new, Scene.hit_point]
    simp only [List.foldl]
    rw [Mesh.hit_point, meshC2_box_rejects]
    rfl
  · rw [sceneC2, Scene.new, bruteForceHit]
    simp only [List.flatMap_cons, List.flatMap_nil, meshC2_eq, List.filterMap,
      triC2_hit, List.append_nil]
    rfl

/-- A unit ray through the interior of `meshC2`'s bounding box, hitting
the triangle `triC2` at barycentric `(1/4, 1/4)`, distance 2. -/
def rayW2 : Ray ℚ :=
  { origin := Vec3.mk (1/4) (1/4) (-1), direction := Vec3.mk 0 0 1 }

/-- C2 witness: on a box-passing ray the amended equivalence applies and
both sides agree. -/
theorem C2_scene_hit_eq_bruteforce_of_box_pass_witness :
    (∀ m ∈ sceneC2.meshes, m.bounding_box.hit_by rayW2 (1 / 100000) = true) ∧
    Scene.hit_point sceneC2 rayW2 (1 / 100000) =
      bruteForceHit sceneC2 rayW2 (1 / 100000) := by
  have hbox : ∀ m ∈ sceneC2.meshes,
      m.bounding_box.hit_by rayW2 (1 / 100000) = true := by
    intro m hm
    rw [sceneC2, Scene.new] at hm
    simp only [List.mem_singleton] at hm
    subst hm
    rw [meshC2_eq]
    rw [BoundingBox.hit_by, BoundingBox.hitT]
    have h0 : BoundingBox.slabAxis
        { range_x := (EF.fin 0, EF.fin 1), range_y := (EF.fin 0, EF.fin 1)
          range_z := (EF.fin (0:ℚ), EF.fin 2) } rayW2 0 (EF.ninf, EF.pinf) =
        some (EF.ninf, EF.pinf) := by
      rw [BoundingBox.slabAxis, BoundingBox.slabCheck]
      norm_num [BoundingBox.axis, rayW2, Vec3.comp, EF.div, EF.subK, EF.mul,
        EF.flt, EF.fle, EF.fmax, EF.fmin, min_def, max_def]
    have h1 : BoundingBox.slabAxis
        { range_x := (EF.fin 0, EF.fin 1), range_y := (EF.fin 0, EF.fin 1)
          range_z := (EF.fin (0:ℚ), EF.fin 2) } rayW2 1 (EF.ninf, EF.pinf) =
        some (EF.ninf, EF.pinf) := by
      rw [BoundingBox.slabAxis, BoundingBox.slabCheck]
      norm_num [BoundingBox.axis, rayW2, Vec3.comp, EF.div, EF.subK, EF.mul,
        EF.flt, EF.fle, EF.fmax, EF.fmin, min_def, max_def]
    have h2 : BoundingBox.slabAxis
        { range_x := (EF.fin 0, EF.fin 1), range_y := (EF.fin 0, EF.fin 1)
          range_z := (EF.fin (0:ℚ), EF.fin 2) } rayW2 2 (EF.ninf, EF.pinf) =
        some (EF.fin 1, EF.fin 3) := by
      rw [BoundingBox.slabAxis, BoundingBox.slabCheck]
      norm_num [BoundingBox.axis, rayW2, Vec3.comp, EF.div, EF.subK, EF.mul,
        EF.flt, EF.fle, EF.fmax, EF.fmin, min_def, max_def]
    simp only [h0, h1, h2]
    rfl
  exact ⟨hbox,
    C2_scene_hit_eq_bruteforce_of_box_pass sceneC2 rayW2 (1 / 100000) hbox⟩

/-! ## C3 and C4: the BVH builder of `culet/src/bvh.rs`

The builder is embedded over `ℚ` with every slice access checked:
`Except BvhPanic` models the Rust panics.  The `Vec4` vertices carry a
constant `w = 1` used only for GPU alignment, so the embedding keeps
their `xyz` part.  `subdivide`'s recursion is driven by a fuel
parameter; the source recursion terminates because child ranges are
strictly smaller, and every theorem below is conditioned on a
successful (`Except.ok`) run. -/

/-- The abnormal terminations the builder can reach: `oob` an
out-of-bounds index (Rust panic), `underflow` the `usize` overflow of
`j -= 1` at `j = 0` in the partition loop (panic in debug builds; in
release it wraps to `usize::MAX` and the next `triangle_indices[i]` swap
indexes out of bounds), `fuel` the embedding's recursion budget. -/
inductive BvhPanic where
  | oob : BvhPanic
  | underflow : BvhPanic
  | fuel : BvhPanic
deriving DecidableEq, Repr

/-- `BvhNode`: `left_or_first` is the left-child index of a branch node
(`triangle_count = 0`, right child at `left_or_first + 1`) and the first
triangle slot of a leaf (`triangle_count > 0`). -/
structure BvhNode where
  aabb_min : Vec3 ℚ
  left_or_first : ℕ
  aabb_max : Vec3 ℚ
  triangle_count : ℕ
deriving DecidableEq, Repr

instance : Inhabited BvhNode :=
  ⟨{ aabb_min := Vec3.mk 0 0 0, left_or_first := 0
     aabb_max := Vec3.mk 0 0 0, triangle_count := 0 }⟩

/-- The `Bvh` struct. -/
structure Bvh where
  vertices : List (Vec3 ℚ)
  indices : List ℕ
  triangle_indices : List ℕ
  nodes : List BvhNode
  node_count : ℕ
deriving DecidableEq, Repr

/-- Checked slice read (a Rust index panic is `BvhPanic.oob`). -/
def vget {α : Type} (l : List α) (i : ℕ) : Except BvhPanic α :=
  match l.get? i with
  | some a => Except.ok a
  | none => Except.error BvhPanic.oob

/-- Checked slice write. -/
def vset {α : Type} (l : List α) (i : ℕ) (a : α) : Except BvhPanic (List α) :=
  if i < l.length then Except.ok (l.set i a) else Except.error BvhPanic.oob

/-- Componentwise `Vec3::min`. -/
def Vec3.vmin {K : Type} [LinearOrderedField K] (a b : Vec3 K) : Vec3 K :=
  ⟨min a.x b.x, min a.y b.y, min a.z b.z⟩

/-- Componentwise `Vec3::max`. -/
def Vec3.vmax {K : Type} [LinearOrderedField K] (a b : Vec3 K) : Vec3 K :=
  ⟨max a.x b.x, max a.y b.y, max a.z b.z⟩

/-- Scalar division of a vector, `v / 3.0`. -/
def Vec3.sdiv {K : Type} [LinearOrderedField K] (a : Vec3 K) (k : K) : Vec3 K :=
  ⟨a.x / k, a.y / k, a.z / k⟩

/-- The centroid fetch in `subdivide`:
`(vertices[indices[3*t]] + vertices[indices[3*t+1]] + vertices[indices[3*t+2]]) / 3.0`. -/
def Bvh.centroid (s : Bvh) (tri_index : ℕ) : Except BvhPanic (Vec3 ℚ) := do
  let i0 ← vget s.indices (3 * tri_index)
  let i1 ← vget s.indices (3 * tri_index + 1)
  let i2 ← vget s.indices (3 * tri_index + 2)
  let v0 ← vget s.vertices i0
  let v1 ← vget s.vertices i1
  let v2 ← vget s.vertices i2
  Except.ok (Vec3.sdiv (v0 + v1 + v2) 3)

/-- `update_node_bounds`: recompute the node's AABB as the min/max over
all vertex positions of the triangles in its range, starting from
`±1e30`. -/
def Bvh.update_node_bounds (s : Bvh) (node_index : ℕ) : Except BvhPanic Bvh := do
  let node ← vget s.nodes node_index
  let node ← (List.range node.triangle_count).foldlM
    (fun (nd : BvhNode) (i : ℕ) => do
      let triangle_index ← vget s.triangle_indices (nd.left_or_first + i)
      let i0 ← vget s.indices (triangle_index * 3)
      let i1 ← vget s.indices (triangle_index * 3 + 1)
      let i2 ← vget s.indices (triangle_index * 3 + 2)
      let v0 ← vget s.vertices i0
      let v1 ← vget s.vertices i1
      let v2 ← vget s.vertices i2
      Except.ok { nd with
        aabb_min := ((nd.aabb_min.vmin v0).vmin v1).vmin v2
        aabb_max := ((nd.aabb_max.vmax v0).vmax v1).vmax v2 })
    { node with aabb_min := Vec3.splat (10 ^ 30 : ℚ)
                aabb_max := Vec3.splat (-(10 ^ 30) : ℚ) }
  let nodes ← vset s.nodes node_index node
  Except.ok { s with nodes := nodes }

/-- The two-pointer partition of `subdivide`, faithful to the Rust
`while i <= j` loop: triangles whose centroid lies below the split stay
left, otherwise the entries at `i` and `j` are swapped and `j`
decrements — which underflows when `j = 0`. -/
def Bvh.partLoop (s : Bvh) (axis : ℕ) (split : ℚ) :
    List ℕ → ℕ → ℕ → Except BvhPanic (List ℕ × ℕ)
  | tris, i, j =>
    if hij : j < i then Except.ok (tris, i)
    else do
      let tri_index ← vget tris i
      let c ← s.centroid tri_index
      if c.comp axis < split then
        Bvh.partLoop s axis split tris (i + 1) j
      else do
        let a ← vget tris i
        let b ← vget tris j
        let tris := (tris.set i b).set j a
        if hj : j = 0 then Except.error BvhPanic.underflow
        else Bvh.partLoop s axis split tris i (j - 1)
termination_by tris i j => j + 1 - i
decreasing_by
  · omega
  · omega

/-- `subdivide` (fuel-driven embedding of the recursive builder). -/
def Bvh.subdivide : ℕ → Bvh → ℕ → Except BvhPanic Bvh
  | 0, _, _ => Except.error BvhPanic.fuel
  | fuel + 1, s, node_index => do
    let node ← vget s.nodes node_index
    -- stop dividing at leaf nodes
    if node.triangle_count ≤ 2 then Except.ok s
    else do
      let extent := node.aabb_max - node.aabb_min
      let axis0 : ℕ := if extent.y > extent.x then 1 else 0
      let axis : ℕ := if extent.z > extent.comp axis0 then 2 else axis0
      let split := node.aabb_min.comp axis + (1 / 2 : ℚ) * extent.comp axis
      -- partition the triangle indices above and below the split value
      let pr ← Bvh.partLoop s axis split s.triangle_indices node.left_or_first
        (node.left_or_first + node.triangle_count - 1)
      let s := { s with triangle_indices := pr.1 }
      let left_count := pr.2 - node.left_or_first
      -- don't split if one side is empty
      if left_count = 0 ∨ left_count = node.triangle_count then Except.ok s
      else do
        let left_child := s.node_count
        let right_child := s.node_count + 1
        let s := { s with node_count := s.node_count + 2 }
        let ndl ← vget s.nodes left_child
        let nodes ← vset s.nodes left_child
          { ndl with left_or_first := node.left_or_first
                     triangle_count := left_count }
        let s := { s with nodes := nodes }
        let ndr ← vget s.nodes right_child
        let nodes ← vset s.nodes right_child
          { ndr with left_or_first := pr.2
                     triangle_count := node.triangle_count - left_count }
        let s := { s with nodes := nodes }
        -- turn this node into a non-leaf
        let ndc ← vget s.nodes node_index
        let nodes ← vset s.nodes node_index
          { ndc with left_or_first := left_child, triangle_count := 0 }
        let s := { s with nodes := nodes }
        let s ← s.update_node_bounds left_child
        let s ← s.update_node_bounds right_child
        let s ← Bvh.subdivide fuel s left_child
        Bvh.subdivide fuel s right_child

/-- `Bvh::new`: `2n+1` preallocated nodes, the root covering the
identity permutation of the `n = indices.len() / 3` triangles. -/
def Bvh.new (vertices : List (Vec3 ℚ)) (indices : List ℕ) :
    Except BvhPanic Bvh := do
  let n_tris := indices.length / 3
  let nodes := (List.replicate (2 * n_tris + 1) (default : BvhNode)).set 0
    { (default : BvhNode) with triangle_count := n_tris }
  let tree : Bvh :=
    { vertices := vertices, indices := indices
      triangle_indices := List.range n_tris
      nodes := nodes, node_count := 1 }
  let tree ← tree.update_node_bounds 0
  Bvh.subdivide (n_tris + 1) tree 0

/-- The triangle-slot range `[left_or_first, left_or_first +
triangle_count)` of a leaf node, as a list. -/
def leafRanges (nodes : List BvhNode) : List (List ℕ) :=
  nodes.filterMap fun nd =>
    if 0 < nd.triangle_count then
      some (List.range' nd.left_or_first nd.triangle_count)
    else none

/-- The multiset of triangle slots covered by one node (empty unless it
is a leaf). -/
def rangeMs (nd : BvhNode) : Multiset ℕ :=
  if 0 < nd.triangle_count then
    ↑(List.range' nd.left_or_first nd.triangle_count)
  else 0

/-- The multiset of triangle slots covered by all leaves. -/
def leafMs (nodes : List BvhNode) : Multiset ℕ :=
  (nodes.map rangeMs).sum

theorem leafMs_nil : leafMs [] = 0 := rfl

theorem leafMs_cons (nd : BvhNode) (t : List BvhNode) :
    leafMs (nd :: t) = rangeMs nd + leafMs t := by
  rw [leafMs, List.map_cons, List.sum_cons]
  rfl

theorem leafMs_eq_flatten (nodes : List BvhNode) :
    leafMs nodes = ↑(leafRanges nodes).flatten := by
  induction nodes with
  | nil => rfl
  | cons nd t ih =>
    by_cases h : 0 < nd.triangle_count
    · simp only [leafMs_cons, ih, leafRanges, List.filterMap_cons, if_pos h,
        List.flatten_cons, rangeMs]
      exact (Multiset.coe_add _ _).symm
    · simp only [leafMs_cons, ih, leafRanges, List.filterMap_cons, if_neg h,
        rangeMs, zero_add]

/-- Exchanging one entry of a node list exchanges its contribution in
the leaf-slot multiset. -/
theorem leafMs_set (l : List BvhNode) :
    ∀ (i : ℕ) (nd a : BvhNode), l.get? i = some nd →
      leafMs (l.set i a) + rangeMs nd = leafMs l + rangeMs a := by
  induction l with
  | nil => intro i nd a h; cases h
  | cons hd t ih =>
    intro i nd a h
    cases i with
    | zero =>
      rw [List.get?_cons_zero] at h
      injection h with h
      subst h
      rw [List.set_cons_zero, leafMs_cons, leafMs_cons]
      abel
    | succ i =>
      rw [List.get?_cons_succ] at h
      rw [List.set_cons_succ, leafMs_cons, leafMs_cons,
        add_assoc, add_assoc, ih i nd a h]

/-- Exchanging one entry of a list exchanges its contribution in the
element multiset. -/
theorem coe_set_exchange {α : Type} (l : List α) :
    ∀ (i : ℕ) (x a : α), l.get? i = some x →
      (↑(l.set i a) : Multiset α) + {x} = ↑l + {a} := by
  induction l with
  | nil => intro i x a h; cases h
  | cons hd t ih =>
    intro i x a h
    cases i with
    | zero =>
      rw [List.get?_cons_zero] at h
      injection h with h
      rw [List.set_cons_zero, ← h]
      calc (↑(a :: t) : Multiset α) + {hd} = {hd} + ↑(a :: t) := add_comm _ _
      _ = hd ::ₘ ↑(a :: t) := Multiset.singleton_add _ _
      _ = hd ::ₘ a ::ₘ ↑t := by rw [← Multiset.cons_coe]
      _ = a ::ₘ hd ::ₘ ↑t := Multiset.cons_swap _ _ _
      _ = a ::ₘ ↑(hd :: t) := by rw [← Multiset.cons_coe]
      _ = {a} + ↑(hd :: t) := (Multiset.singleton_add _ _).symm
      _ = ↑(hd :: t) + {a} := add_comm _ _
    | succ i =>
      rw [List.get?_cons_succ] at h
      rw [List.set_cons_succ, ← Multiset.cons_coe, ← Multiset.cons_coe,
        Multiset.cons_add, Multiset.cons_add, ih i x a h]

/-- The element multiset is invariant under the two-read two-write swap
`triangle_indices.swap(i, j)`. -/
theorem coe_swap {α : Type} (l : List α) (i j : ℕ) (a b : α)
    (ha : l.get? i = some a) (hb : l.get? j = some b) :
    (↑((l.set i b).set j a) : Multiset α) = ↑l := by
  have hj : (l.set i b).get? j = some b := by
    rw [List.get?_eq_getElem?] at ha hb ⊢
    by_cases hij : i = j
    · subst hij
      have hlt : i < l.length := by
        rcases List.getElem?_eq_some_iff.mp ha with ⟨h1, _⟩
        exact h1
      have hab : a = b := by
        rw [ha] at hb
        injection hb
      subst hab
      simp [List.getElem?_set, hlt]
    · simp [List.getElem?_set, hij]
      exact hb
  have e1 := coe_set_exchange (l.set i b) j b a hj
  have e2 := coe_set_exchange l i a b ha
  have key : (↑((l.set i b).set j a) : Multiset α) + {b} = ↑l + {b} := by
    rw [e1, e2]
  exact add_right_cancel key

theorem except_bind_ok {ε α β : Type} (e : Except ε α) (k : α → Except ε β)
    (r : β) :
    (e >>= k) = Except.ok r ↔ ∃ v, e = Except.ok v ∧ k v = Except.ok r := by
  cases e with
  | error err =>
    constructor
    · intro h
      cases h
    · rintro ⟨v, hv, _⟩
      cases hv
  | ok v =>
    constructor
    · intro h
      exact ⟨v, rfl, h⟩
    · rintro ⟨w, hw, hk⟩
      injection hw with hw
      subst hw
      exact hk

theorem vget_ok {α : Type} {l : List α} {i : ℕ} {a : α}
    (h : vget l i = Except.ok a) : l.get? i = some a := by
  rw [vget] at h
  cases hg : l.get? i with
  | none => rw [hg] at h; cases h
  | some b =>
    rw [hg] at h
    injection h with h
    subst h
    rfl

theorem vset_ok {α : Type} {l : List α} {i : ℕ} {a : α} {l' : List α}
    (h : vset l i a = Except.ok l') : l' = l.set i a ∧ i < l.length := by
  rw [vset] at h
  by_cases hi : i < l.length
  · rw [if_pos hi] at h
    injection h with h
    exact ⟨h.symm, hi⟩
  · rw [if_neg hi] at h
    cases h

/-- The bookkeeping fields of a node (everything except the AABB). -/
def nodeShape (nd : BvhNode) : ℕ × ℕ := (nd.left_or_first, nd.triangle_count)

theorem rangeMs_shape {nd nd' : BvhNode} (h : nodeShape nd = nodeShape nd') :
    rangeMs nd = rangeMs nd' := by
  rcases nd with ⟨mn, lf, mx, tc⟩
  rcases nd' with ⟨mn', lf', mx', tc'⟩
  rw [nodeShape, nodeShape] at h
  injection h with h1 h2
  simp only at h1 h2
  subst h1
  subst h2
  rfl

/-- Pointwise shape equality gives equal leaf multisets. -/
theorem leafMs_shape_eq (l1 : List BvhNode) :
    ∀ l2 : List BvhNode,
      (∀ k, Option.map nodeShape (l1.get? k) = Option.map nodeShape (l2.get? k)) →
      leafMs l1 = leafMs l2 := by
  induction l1 with
  | nil =>
    intro l2 h
    cases l2 with
    | nil => rfl
    | cons b t =>
      have := h 0
      rw [List.get?_nil, List.get?_cons_zero] at this
      cases this
  | cons a t ih =>
    intro l2 h
    cases l2 with
    | nil =>
      have := h 0
      rw [List.get?_nil, List.get?_cons_zero] at this
      cases this
    | cons b t2 =>
      have h0 := h 0
      rw [List.get?_cons_zero, List.get?_cons_zero] at h0
      simp only [Option.map_some'] at h0
      injection h0 with h0
      rw [leafMs_cons, leafMs_cons, rangeMs_shape h0,
        ih t2 fun k => by
          have := h (k + 1)
          rw [List.get?_cons_succ, List.get?_cons_succ] at this
          exact this]

/-- What one iteration of the `update_node_bounds` fold does to the
bookkeeping fields: nothing. -/
theorem update_bounds_fold_shape (s : Bvh) :
    ∀ (l : List ℕ) (nd0 nd' : BvhNode),
      l.foldlM
        (fun (nd : BvhNode) (i : ℕ) => do
          let triangle_index ← vget s.triangle_indices (nd.left_or_first + i)
          let i0 ← vget s.indices (triangle_index * 3)
          let i1 ← vget s.indices (triangle_index * 3 + 1)
          let i2 ← vget s.indices (triangle_index * 3 + 2)
          let v0 ← vget s.vertices i0
          let v1 ← vget s.vertices i1
          let v2 ← vget s.vertices i2
          Except.ok { nd with
            aabb_min := ((nd.aabb_min.vmin v0).vmin v1).vmin v2
            aabb_max := ((nd.aabb_max.vmax v0).vmax v1).vmax v2 })
        nd0 = Except.ok nd' →
      nodeShape nd' = nodeShape nd0 := by
  intro l
  induction l with
  | nil =>
    intro nd0 nd' h
    rw [List.foldlM_nil] at h
    injection h with h
    subst h
    rfl
  | cons x xs ih =>
    intro nd0 nd' h
    rw [List.foldlM_cons] at h
    rw [except_bind_ok] at h
    obtain ⟨v, hv, h⟩ := h
    have hs : nodeShape v = nodeShape nd0 := by
      rw [except_bind_ok] at hv
      obtain ⟨_, _, hv⟩ := hv
      rw [except_bind_ok] at hv
      obtain ⟨_, _, hv⟩ := hv
      rw [except_bind_ok] at hv
      obtain ⟨_, _, hv⟩ := hv
      rw [except_bind_ok] at hv
      obtain ⟨_, _, hv⟩ := hv
      rw [except_bind_ok] at hv
      obtain ⟨_, _, hv⟩ := hv
      rw [except_bind_ok] at hv
      obtain ⟨_, _, hv⟩ := hv
      rw [except_bind_ok] at hv
      obtain ⟨_, _, hv⟩ := hv
      injection hv with hv
      subst hv
      rfl
    rw [ih v nd' h, hs]

/-- `update_node_bounds` only rewrites AABB fields: the triangle
permutation, node count, node list length and every node's bookkeeping
shape are unchanged. -/
theorem update_node_bounds_ok {s : Bvh} {idx : ℕ} {s' : Bvh}
    (h : s.update_node_bounds idx = Except.ok s') :
    s'.triangle_indices = s.triangle_indices ∧
    s'.node_count = s.node_count ∧
    s'.nodes.length = s.nodes.length ∧
    (∀ k, Option.map nodeShape (s'.nodes.get? k) =
      Option.map nodeShape (s.nodes.get? k)) := by
  rw [Bvh.update_node_bounds] at h
  rw [except_bind_ok] at h
  obtain ⟨node, hnode, h⟩ := h
  rw [except_bind_ok] at h
  obtain ⟨node', hfold, h⟩ := h
  rw [except_bind_ok] at h
  obtain ⟨nodes', hset, h⟩ := h
  injection h with h
  subst h
  obtain ⟨hn', hlen⟩ := vset_ok hset
  subst hn'
  have hshape : nodeShape node' = nodeShape node := by
    have := update_bounds_fold_shape s (List.range node.triangle_count) _ _ hfold
    rw [this]
    rfl
  refine ⟨rfl, rfl, by simp, ?_⟩
  intro k
  simp only
  rw [List.get?_eq_getElem?, List.get?_eq_getElem?, List.getElem?_set]
  by_cases hk : idx = k
  · subst hk
    rw [if_pos rfl, if_pos hlen]
    have := vget_ok hnode
    rw [List.get?_eq_getElem?] at this
    rw [this]
    simp only [Option.map_some']
    rw [hshape]
  · rw [if_neg hk]

theorem ok_bind {ε α β : Type} (a : α) (k : α → Except ε β) :
    (Except.ok a >>= k : Except ε β) = k a := rfl


/-- The partition loop only rearranges entries: the triangle-index
multiset is preserved and the returned split point lies in
`[i, j + 1]`. -/
theorem partLoop_ok (s : Bvh) (axis : ℕ) (split : ℚ) :
    ∀ (n : ℕ) (tris : List ℕ) (i j : ℕ), j + 1 - i ≤ n → i ≤ j + 1 →
      ∀ (tris' : List ℕ) (i' : ℕ),
      Bvh.partLoop s axis split tris i j = Except.ok (tris', i') →
      (↑tris' : Multiset ℕ) = ↑tris ∧ i ≤ i' ∧ i' ≤ j + 1 := by
  intro n
  induction n with
  | zero =>
    intro tris i j hle hpre tris' i' h
    rw [Bvh.partLoop] at h
    rw [dif_pos (by omega)] at h
    injection h with h
    injection h with h1 h2
    subst h1
    subst h2
    exact ⟨rfl, le_refl _, by omega⟩
  | succ n ih =>
    intro tris i j hle hpre tris' i' h
    rw [Bvh.partLoop] at h
    by_cases hij : j < i
    · rw [dif_pos hij] at h
      injection h with h
      injection h with h1 h2
      subst h1
      subst h2
      exact ⟨rfl, le_refl _, by omega⟩
    · rw [dif_neg hij] at h
      rw [except_bind_ok] at h
      obtain ⟨ti, hti, h⟩ := h
      first
      | simp only [] at h
      | skip
      rw [except_bind_ok] at h
      obtain ⟨c, hc, h⟩ := h
      first
      | simp only [] at h
      | skip
      by_cases hsp : c.comp axis < split
      · rw [if_pos hsp] at h
        obtain ⟨hm, hi, hj⟩ := ih tris (i + 1) j (by omega) (by omega) tris' i' h
        exact ⟨hm, by omega, hj⟩
      · rw [if_neg hsp] at h
        rw [except_bind_ok] at h
        obtain ⟨a, ha, h⟩ := h
        first
        | simp only [] at h
        | skip
        rw [except_bind_ok] at h
        obtain ⟨b, hb, h⟩ := h
        first
        | simp only [] at h
        | skip
        by_cases hj0 : j = 0
        · rw [dif_pos hj0] at h
          cases h
        · rw [dif_neg hj0] at h
          obtain ⟨hm, hi, hj⟩ :=
            ih ((tris.set i b).set j a) i (j - 1) (by omega) (by omega) tris' i' h
          refine ⟨?_, hi, by omega⟩
          rw [hm]
          exact coe_swap tris i j a b (vget_ok ha) (vget_ok hb)

theorem range'_split : ∀ (m s n : ℕ),
    List.range' s (m + n) = List.range' s m ++ List.range' (s + m) n := by
  intro m
  induction m with
  | zero =>
    intro s n
    rw [List.range'_zero, List.nil_append, Nat.zero_add, Nat.add_zero]
  | succ m ih =>
    intro s n
    have h1 : m + 1 + n = (m + n) + 1 := by omega
    rw [h1, List.range'_succ, List.range'_succ, ih (s + 1) n, List.cons_append]
    have h2 : s + 1 + m = s + (m + 1) := by omega
    rw [h2]

theorem triangle_count_of_shape {nd nd' : BvhNode}
    (h : nodeShape nd = nodeShape nd') : nd.triangle_count = nd'.triangle_count :=
  congrArg Prod.snd h

/-- The builder invariant: every node slot at or past `node_count` is
still untouched (zero triangle count). -/
def BvhInv (s : Bvh) : Prop :=
  ∀ k, s.node_count ≤ k → ∀ nd, s.nodes.get? k = some nd → nd.triangle_count = 0

theorem inv_of_shape {s s' : Bvh} (hcnt : s'.node_count = s.node_count)
    (hsh : ∀ k, Option.map nodeShape (s'.nodes.get? k) =
      Option.map nodeShape (s.nodes.get? k))
    (inv : BvhInv s) : BvhInv s' := by
  intro k hk nd hget
  have hmap := hsh k
  rw [hget] at hmap
  cases hg : s.nodes.get? k with
  | none =>
    rw [hg] at hmap
    cases hmap
  | some nd0 =>
    rw [hg] at hmap
    simp only [Option.map_some'] at hmap
    injection hmap with hmap
    have h0 : nd0.triangle_count = 0 := inv k (by omega) nd0 hg
    rw [triangle_count_of_shape hmap, h0]

theorem rangeMs_zero {nd : BvhNode} (h : nd.triangle_count = 0) :
    rangeMs nd = 0 := by
  rw [rangeMs, if_neg]
  omega

theorem rangeMs_pos {nd : BvhNode} (h : 0 < nd.triangle_count) :
    rangeMs nd = ↑(List.range' nd.left_or_first nd.triangle_count) := by
  rw [rangeMs, if_pos h]

theorem get?_set_ne {α : Type} (l : List α) (i j : ℕ) (a : α) (h : i ≠ j) :
    (l.set i a).get? j = l.get? j := by
  rw [List.get?_eq_getElem?, List.get?_eq_getElem?, List.getElem?_set, if_neg h]

theorem get?_set_ne' {α : Type} {l : List α} {a : α} (i j : ℕ) (h : i ≠ j) :
    (l.set i a).get? j = l.get? j := by
  rw [List.get?_eq_getElem?, List.get?_eq_getElem?, List.getElem?_set, if_neg h]

theorem rangeMs_mk (nd : BvhNode) (f c : ℕ) (h : 0 < c) :
    rangeMs { nd with left_or_first := f, triangle_count := c } =
      ↑(List.range' f c) := by
  rw [rangeMs, if_pos h]

theorem range'_ms_split2 (a b c : ℕ) (hab : a ≤ b) (hbc : b ≤ a + c) :
    (↑(List.range' a (b - a)) : Multiset ℕ) +
      ↑(List.range' b (c - (b - a))) = ↑(List.range' a c) := by
  obtain ⟨d, rfl⟩ : ∃ d, b = a + d := ⟨b - a, by omega⟩
  simp only [Nat.add_sub_cancel_left]
  obtain ⟨e, rfl⟩ : ∃ e, c = d + e := ⟨c - d, by omega⟩
  simp only [Nat.add_sub_cancel_left]
  rw [range'_split d a e]
  exact (Multiset.coe_add _ _).symm

theorem update_node_bounds_ok2 {s : Bvh} {idx : ℕ} {s' : Bvh}
    (h : s.update_node_bounds idx = Except.ok s') (inv : BvhInv s) :
    BvhInv s' ∧ s'.triangle_indices = s.triangle_indices ∧
    s'.node_count = s.node_count ∧ s'.nodes.length = s.nodes.length ∧
    leafMs s'.nodes = leafMs s.nodes := by
  obtain ⟨ht, hc, hl, hs⟩ := update_node_bounds_ok h
  exact ⟨inv_of_shape hc hs inv, ht, hc, hl, leafMs_shape_eq _ _ hs⟩

/-- `subdivide` preserves the builder bookkeeping: the untouched-node
invariant, the node-list length, the triangle-index multiset and the
multiset of triangle slots covered by the leaves. -/
theorem subdivide_ok : ∀ (fuel : ℕ) (s : Bvh) (idx : ℕ) (s' : Bvh),
    Bvh.subdivide fuel s idx = Except.ok s' → BvhInv s → idx < s.node_count →
    BvhInv s' ∧ s.node_count ≤ s'.node_count ∧
    s'.nodes.length = s.nodes.length ∧
    (↑s'.triangle_indices : Multiset ℕ) = ↑s.triangle_indices ∧
    leafMs s'.nodes = leafMs s.nodes := by
  intro fuel
  induction fuel with
  | zero =>
    intro s idx s' h inv hidx
    rw [Bvh.subdivide] at h
    cases h
  | succ n ih =>
    intro s idx s' h inv hidx
    rw [Bvh.subdivide] at h
    rw [except_bind_ok] at h
    obtain ⟨node, hnode, h⟩ := h
    first
    | simp only [] at h
    | skip
    by_cases hc : node.triangle_count ≤ 2
    · rw [if_pos hc] at h
      injection h with h
      subst h
      exact ⟨inv, le_refl _, rfl, rfl, rfl⟩
    · rw [if_neg hc] at h
      first
      | simp only [] at h
      | skip
      rw [except_bind_ok] at h
      obtain ⟨pr, hpr, h⟩ := h
      obtain ⟨tris', i'⟩ := pr
      first
      | simp only [] at h
      | skip
      obtain ⟨hms, hi1, hi2⟩ := partLoop_ok s _ _ _ s.triangle_indices
        node.left_or_first (node.left_or_first + node.triangle_count - 1)
        (le_refl _) (by omega) tris' i' hpr
      by_cases hside : i' - node.left_or_first = 0 ∨
          i' - node.left_or_first = node.triangle_count
      · rw [if_pos hside] at h
        injection h with h
        subst h
        exact ⟨inv, le_refl _, rfl, hms, rfl⟩
      · rw [if_neg hside] at h
        first
        | simp only [] at h
        | skip
        rw [except_bind_ok] at h
        obtain ⟨ndl, hndl, h⟩ := h
        first
        | simp only [] at h
        | skip
        rw [except_bind_ok] at h
        obtain ⟨nodes1, hset1, h⟩ := h
        obtain ⟨e1, hlen1⟩ := vset_ok hset1
        subst e1
        first
        | simp only [] at h
        | skip
        rw [except_bind_ok] at h
        obtain ⟨ndr, hndr, h⟩ := h
        first
        | simp only [] at h
        | skip
        rw [except_bind_ok] at h
        obtain ⟨nodes2, hset2, h⟩ := h
        obtain ⟨e2, hlen2⟩ := vset_ok hset2
        subst e2
        first
        | simp only [] at h
        | skip
        rw [except_bind_ok] at h
        obtain ⟨ndc, hndc, h⟩ := h
        first
        | simp only [] at h
        | skip
        rw [except_bind_ok] at h
        obtain ⟨nodes3, hset3, h⟩ := h
        obtain ⟨e3, hlen3⟩ := vset_ok hset3
        subst e3
        first
        | simp only [] at h
        | skip
        rw [except_bind_ok] at h
        obtain ⟨s3, hub1, h⟩ := h
        first
        | simp only [] at h
        | skip
        rw [except_bind_ok] at h
        obtain ⟨s4, hub2, h⟩ := h
        first
        | simp only [] at h
        | skip
        rw [except_bind_ok] at h
        obtain ⟨s5, hrec1, h⟩ := h
        first
        | simp only [] at h
        | skip
        -- positions of the three written nodes in the original list
        have hglB : s.nodes.get? s.node_count = some ndl := vget_ok hndl
        have hgrB : s.nodes.get? (s.node_count + 1) = some ndr := by
          have h0 := vget_ok hndr
          first
          | simp only [] at h0
          | skip
          rw [get?_set_ne' s.node_count (s.node_count + 1) (by omega)] at h0
          exact h0
        have hgcB : s.nodes.get? idx = some ndc := by
          have h0 := vget_ok hndc
          first
          | simp only [] at h0
          | skip
          rw [get?_set_ne' (s.node_count + 1) idx (by omega),
            get?_set_ne' s.node_count idx (by omega)] at h0
          exact h0
        have hcn : ndc = node := by
          have h0 := vget_ok hnode
          rw [hgcB] at h0
          exact Option.some.inj h0
        have hl0 : ndl.triangle_count = 0 := inv s.node_count (le_refl _) ndl hglB
        have hr0 : ndr.triangle_count = 0 :=
          inv (s.node_count + 1) (by omega) ndr hgrB
        -- leaf-slot bookkeeping across the three node writes
        have hstepA := leafMs_set s.nodes s.node_count ndl
          { ndl with
            left_or_first := node.left_or_first
            triangle_count := i' - node.left_or_first } hglB
        rw [rangeMs_zero hl0, add_zero,
          rangeMs_mk ndl node.left_or_first (i' - node.left_or_first)
            (by omega)] at hstepA
        have hgB2 : (s.nodes.set s.node_count
            { ndl with
              left_or_first := node.left_or_first
              triangle_count := i' - node.left_or_first }).get?
            (s.node_count + 1) = some ndr := by
          rw [get?_set_ne' s.node_count (s.node_count + 1) (by omega)]
          exact hgrB
        have hstepB := leafMs_set (s.nodes.set s.node_count
            { ndl with
              left_or_first := node.left_or_first
              triangle_count := i' - node.left_or_first })
          (s.node_count + 1) ndr
          { ndr with
            left_or_first := i'
            triangle_count := node.triangle_count - (i' - node.left_or_first) }
          hgB2
        rw [rangeMs_zero hr0, add_zero,
          rangeMs_mk ndr i' (node.triangle_count - (i' - node.left_or_first))
            (by omega), hstepA] at hstepB
        have hgC2 : ((s.nodes.set s.node_count
            { ndl with
              left_or_first := node.left_or_first
              triangle_count := i' - node.left_or_first }).set
            (s.node_count + 1)
            { ndr with
              left_or_first := i'
              triangle_count :=
                node.triangle_count - (i' - node.left_or_first) }).get?
            idx = some ndc := by
          rw [get?_set_ne' (s.node_count + 1) idx (by omega),
            get?_set_ne' s.node_count idx (by omega)]
          exact hgcB
        have hstepC := leafMs_set ((s.nodes.set s.node_count
            { ndl with
              left_or_first := node.left_or_first
              triangle_count := i' - node.left_or_first }).set
            (s.node_count + 1)
            { ndr with
              left_or_first := i'
              triangle_count :=
                node.triangle_count - (i' - node.left_or_first) })
          idx ndc
          { ndc with left_or_first := s.node_count, triangle_count := 0 } hgC2
        have hrc : rangeMs ndc =
            ↑(List.range' node.left_or_first node.triangle_count) := by
          rw [hcn]
          exact rangeMs_pos (by omega)
        rw [hrc, rangeMs_zero rfl, add_zero, hstepB] at hstepC
        have hsplit := range'_ms_split2 node.left_or_first i'
          node.triangle_count hi1 (by omega)
        have hleafB : leafMs (((s.nodes.set s.node_count
            { ndl with
              left_or_first := node.left_or_first
              triangle_count := i' - node.left_or_first }).set
            (s.node_count + 1)
            { ndr with
              left_or_first := i'
              triangle_count :=
                node.triangle_count - (i' - node.left_or_first) }).set
            idx { ndc with
                  left_or_first := s.node_count
                  triangle_count := 0 }) = leafMs s.nodes := by
          have h2 : leafMs (((s.nodes.set s.node_count
              { ndl with
                left_or_first := node.left_or_first
                triangle_count := i' - node.left_or_first }).set
              (s.node_count + 1)
              { ndr with
                left_or_first := i'
                triangle_count :=
                  node.triangle_count - (i' - node.left_or_first) }).set
              idx { ndc with
                    left_or_first := s.node_count
                    triangle_count := 0 }) +
              ↑(List.range' node.left_or_first node.triangle_count) =
              leafMs s.nodes +
              ↑(List.range' node.left_or_first node.triangle_count) := by
            rw [hstepC, add_assoc, hsplit]
          exact add_right_cancel h2
        -- invariant for the state entering `update_node_bounds`
        have hinvB : BvhInv {
            vertices := s.vertices
            indices := s.indices
            triangle_indices := tris'
            nodes := ((s.nodes.set s.node_count
              { ndl with
                left_or_first := node.left_or_first
                triangle_count := i' - node.left_or_first }).set
              (s.node_count + 1)
              { ndr with
                left_or_first := i'
                triangle_count :=
                  node.triangle_count - (i' - node.left_or_first) }).set
              idx { ndc with
                    left_or_first := s.node_count
                    triangle_count := 0 }
            node_count := s.node_count + 2 } := by
          intro k hk nd hget
          first
          | simp only [] at hk hget
          | skip
          rw [get?_set_ne' idx k (by omega),
            get?_set_ne' (s.node_count + 1) k (by omega),
            get?_set_ne' s.node_count k (by omega)] at hget
          exact inv k (by omega) nd hget
        obtain ⟨hinv3, ht1, hc1, hl1, hlf1⟩ := update_node_bounds_ok2 hub1 hinvB
        first
        | simp only [] at ht1 hc1 hl1 hlf1
        | skip
        rw [hleafB] at hlf1
        simp only [List.length_set] at hl1
        obtain ⟨hinv4, ht2, hc2, hl2, hlf2⟩ := update_node_bounds_ok2 hub2 hinv3
        obtain ⟨hinv5, hcnt5, hlen5, htri5, hleaf5⟩ :=
          ih s4 s.node_count s5 hrec1 hinv4 (by omega)
        obtain ⟨hinv6, hcnt6, hlen6, htri6, hleaf6⟩ :=
          ih s5 (s.node_count + 1) s' h hinv5 (by omega)
        refine ⟨hinv6, by omega, ?_, ?_, ?_⟩
        · rw [hlen6, hlen5, hl2, hl1]
        · rw [htri6, htri5, ht2, ht1]
          exact hms
        · rw [hleaf6, hleaf5, hlf2, hlf1]

theorem init_nodes_inv (n k : ℕ) (hk : 1 ≤ k) (nd : BvhNode)
    (h : ((List.replicate (2 * n + 1) (default : BvhNode)).set 0
      { (default : BvhNode) with triangle_count := n }).get? k = some nd) :
    nd.triangle_count = 0 := by
  rw [get?_set_ne' 0 k (by omega), List.get?_eq_getElem?,
    List.getElem?_replicate] at h
  by_cases hlt : k < 2 * n + 1
  · rw [if_pos hlt] at h
    have hnd := Option.some.inj h
    rw [← hnd]
    rfl
  · rw [if_neg hlt] at h
    cases h

theorem leafMs_replicate (m : ℕ) :
    leafMs (List.replicate m (default : BvhNode)) = 0 := by
  induction m with
  | zero => rfl
  | succ m ihm =>
    rw [List.replicate_succ, leafMs_cons, ihm, rangeMs_zero rfl, zero_add]

theorem init_leafMs (n : ℕ) :
    leafMs ((List.replicate (2 * n + 1) (default : BvhNode)).set 0
      { (default : BvhNode) with triangle_count := n }) = ↑(List.range n) := by
  rw [List.replicate_succ, List.set_cons_zero, leafMs_cons, leafMs_replicate,
    add_zero]
  by_cases hn : 0 < n
  · rw [rangeMs_mk (default : BvhNode) (default : BvhNode).left_or_first n hn]
    have h0 : (default : BvhNode).left_or_first = 0 := rfl
    rw [h0, ← List.range_eq_range']
  · have hn0 : n = 0 := by omega
    subst hn0
    rw [rangeMs_zero rfl]
    rfl

/-- C3: after a successful `Bvh::new` on a mesh whose index buffer
describes `n = indices.len() / 3` triangles, `triangle_indices` is a
permutation of `[0, n)`, and the leaf ranges
`[left_or_first, left_or_first + triangle_count)` of the nodes with
`triangle_count > 0` partition `[0, n)`: their concatenation is a
permutation of `[0, n)` (no triangle slot omitted or duplicated), and in
particular the ranges are pairwise disjoint. -/
theorem C3_bvh_leaf_partition (vertices : List (Vec3 ℚ)) (indices : List ℕ)
    (t : Bvh) (h : Bvh.new vertices indices = Except.ok t) :
    t.triangle_indices.Perm (List.range (indices.length / 3)) ∧
    (leafRanges t.nodes).flatten.Perm (List.range (indices.length / 3)) ∧
    List.Pairwise List.Disjoint (leafRanges t.nodes) := by
  rw [Bvh.new] at h
  first
  | simp only [] at h
  | skip
  rw [except_bind_ok] at h
  obtain ⟨t1, hub, h⟩ := h
  first
  | simp only [] at h
  | skip
  have hinv0 : BvhInv {
      vertices := vertices
      indices := indices
      triangle_indices := List.range (indices.length / 3)
      nodes := (List.replicate (2 * (indices.length / 3) + 1)
        (default : BvhNode)).set 0
        { (default : BvhNode) with triangle_count := indices.length / 3 }
      node_count := 1 } := by
    intro k hk nd hget
    first
    | simp only [] at hk hget
    | skip
    exact init_nodes_inv (indices.length / 3) k hk nd hget
  obtain ⟨hinv1, ht1, hc1, hl1, hlf1⟩ := update_node_bounds_ok2 hub hinv0
  first
  | simp only [] at ht1 hc1 hlf1
  | skip
  obtain ⟨hinv2, hcnt2, hlen2, htri2, hleaf2⟩ :=
    subdivide_ok (indices.length / 3 + 1) t1 0 t h hinv1 (by omega)
  refine ⟨?_, ?_, ?_⟩
  · rw [← Multiset.coe_eq_coe, htri2, ht1]
  · rw [← Multiset.coe_eq_coe, ← leafMs_eq_flatten, hleaf2, hlf1, init_leafMs]
  · have hperm : (leafRanges t.nodes).flatten.Perm
        (List.range (indices.length / 3)) := by
      rw [← Multiset.coe_eq_coe, ← leafMs_eq_flatten, hleaf2, hlf1, init_leafMs]
    exact (List.nodup_flatten.mp
      (hperm.nodup_iff.mpr (List.nodup_range _))).2

theorem subdivide_leaf {fuel : ℕ} {s : Bvh} {idx : ℕ} {node : BvhNode}
    (hn : vget s.nodes idx = Except.ok node) (hc : node.triangle_count ≤ 2) :
    Bvh.subdivide (fuel + 1) s idx = Except.ok s := by
  rw [Bvh.subdivide, hn]
  simp only [ok_bind]
  rw [if_pos hc]

/-- A one-triangle mesh for the concrete `Bvh::new` run. -/
def vertsC3 : List (Vec3 ℚ) := [Vec3.mk 0 0 0, Vec3.mk 1 0 0, Vec3.mk 0 1 0]

def idxC3 : List ℕ := [0, 1, 2]

/-- The root node `Bvh::new` computes for the one-triangle mesh. -/
def rootC3 : BvhNode :=
  { aabb_min := Vec3.mk 0 0 0
    left_or_first := 0
    aabb_max := Vec3.mk 1 1 0
    triangle_count := 1 }

/-- The state of the tree just before `update_node_bounds`. -/
def treeC3 : Bvh :=
  { vertices := vertsC3
    indices := idxC3
    triangle_indices := [0]
    nodes := [{ aabb_min := Vec3.mk 0 0 0
                left_or_first := 0
                aabb_max := Vec3.mk 0 0 0
                triangle_count := 1 }, default, default]
    node_count := 1 }

/-- The finished tree for the one-triangle mesh. -/
def bvhC3 : Bvh :=
  { vertices := vertsC3
    indices := idxC3
    triangle_indices := [0]
    nodes := [rootC3, default, default]
    node_count := 1 }

theorem hubC3 : Bvh.update_node_bounds treeC3 0 = Except.ok bvhC3 := by
  norm_num [Bvh.update_node_bounds, treeC3, bvhC3, rootC3, vertsC3, idxC3,
    vget, vset, List.foldlM, ok_bind, pure_bind, List.range_succ,
    List.range_zero, List.get?_cons_zero, List.get?_cons_succ, List.get?_nil,
    Vec3.vmin, Vec3.vmax, Vec3.splat, min_def, max_def, List.length_cons,
    List.length_nil, List.set]

theorem bvhC3_eq : Bvh.new vertsC3 idxC3 = Except.ok bvhC3 := by
  show Bvh.update_node_bounds treeC3 0 >>=
    (fun tree => Bvh.subdivide (idxC3.length / 3 + 1) tree 0) = Except.ok bvhC3
  rw [hubC3, ok_bind]
  exact subdivide_leaf rfl (by decide)

theorem C3_bvh_leaf_partition_witness :
    Bvh.new vertsC3 idxC3 = Except.ok bvhC3 ∧
    bvhC3.triangle_indices.Perm (List.range (idxC3.length / 3)) ∧
    (leafRanges bvhC3.nodes).flatten.Perm (List.range (idxC3.length / 3)) ∧
    List.Pairwise List.Disjoint (leafRanges bvhC3.nodes) :=
  ⟨bvhC3_eq, C3_bvh_leaf_partition vertsC3 idxC3 bvhC3 bvhC3_eq⟩

theorem error_bind {ε α β : Type} (e : ε) (k : α → Except ε β) :
    (Except.error e >>= k : Except ε β) = Except.error e := rfl

/-- Three coincident triangles: every centroid lies at `x = 20/3`, on or
right of the split plane `x = 5`, so the partition loop never advances
`i` and decrements `j` down to the underflow. -/
def vertsC4 : List (Vec3 ℚ) := [Vec3.mk 0 0 0, Vec3.mk 10 0 0, Vec3.mk 10 1 0]

def idxC4 : List ℕ := [0, 1, 2, 0, 1, 2, 0, 1, 2]

/-- The root node after `update_node_bounds` on the three-triangle mesh. -/
def rootC4 : BvhNode :=
  { aabb_min := Vec3.mk 0 0 0
    left_or_first := 0
    aabb_max := Vec3.mk 10 1 0
    triangle_count := 3 }

/-- The state of the tree just before `update_node_bounds`. -/
def treeC4 : Bvh :=
  { vertices := vertsC4
    indices := idxC4
    triangle_indices := [0, 1, 2]
    nodes := [{ aabb_min := Vec3.mk 0 0 0
                left_or_first := 0
                aabb_max := Vec3.mk 0 0 0
                triangle_count := 3 },
              default, default, default, default, default, default]
    node_count := 1 }

/-- The tree entering `subdivide`. -/
def bvhC4mid : Bvh :=
  { vertices := vertsC4
    indices := idxC4
    triangle_indices := [0, 1, 2]
    nodes := [rootC4, default, default, default, default, default, default]
    node_count := 1 }

theorem hubC4 : Bvh.update_node_bounds treeC4 0 = Except.ok bvhC4mid := by
  norm_num [Bvh.update_node_bounds, treeC4, bvhC4mid, rootC4, vertsC4, idxC4,
    vget, vset, List.foldlM, ok_bind, pure_bind, List.range_succ,
    List.range_zero, List.get?_cons_zero, List.get?_cons_succ, List.get?_nil,
    Vec3.vmin, Vec3.vmax, Vec3.splat, min_def, max_def, List.length_cons,
    List.length_nil, List.set]


/-- All three triangles of the `C4` mesh share the centroid `(20/3, 1/3, 0)`. -/
theorem hcentC4 (s : Bvh) (hv : s.vertices = vertsC4) (hi : s.indices = idxC4) :
    Bvh.centroid s 0 = Except.ok (Vec3.mk (20 / 3) (1 / 3) 0) ∧
    Bvh.centroid s 1 = Except.ok (Vec3.mk (20 / 3) (1 / 3) 0) ∧
    Bvh.centroid s 2 = Except.ok (Vec3.mk (20 / 3) (1 / 3) 0) := by
  refine ⟨?_, ?_, ?_⟩ <;>
    norm_num [Bvh.centroid, vget, hv, hi, vertsC4, idxC4, ok_bind,
      Vec3.sdiv, List.get?_cons_zero, List.get?_cons_succ]

/-- The partition loop on the `C4` mesh never advances `i` and runs `j`
into the underflow. -/
theorem hpartC4 (s : Bvh) (hv : s.vertices = vertsC4)
    (hi : s.indices = idxC4) :
    Bvh.partLoop s 0 5 [0, 1, 2] 0 2 = Except.error BvhPanic.underflow := by
  obtain ⟨hc0, hc1, hc2⟩ := hcentC4 s hv hi
  rw [Bvh.partLoop]
  rw [dif_neg (by omega : ¬(2 : ℕ) < 0)]
  rw [show vget [0, 1, 2] 0 = Except.ok 0 from rfl, ok_bind, hc0, ok_bind]
  rw [if_neg (by norm_num [Vec3.comp] :
    ¬(Vec3.mk ((20 : ℚ) / 3) (1 / 3) 0).comp 0 < (5 : ℚ))]
  rw [ok_bind]
  rw [show vget [0, 1, 2] 2 = Except.ok 2 from rfl, ok_bind]
  first
  | simp only []
  | skip
  rw [dif_neg (by omega : ¬(2 : ℕ) = 0)]
  rw [show (([0, 1, 2].set 0 2).set 2 0 : List ℕ) = [2, 1, 0] from rfl]
  rw [show (2 : ℕ) - 1 = 1 from rfl]
  rw [Bvh.partLoop]
  rw [dif_neg (by omega : ¬(1 : ℕ) < 0)]
  rw [show vget [2, 1, 0] 0 = Except.ok 2 from rfl, ok_bind, hc2, ok_bind]
  rw [if_neg (by norm_num [Vec3.comp] :
    ¬(Vec3.mk ((20 : ℚ) / 3) (1 / 3) 0).comp 0 < (5 : ℚ))]
  rw [ok_bind]
  rw [show vget [2, 1, 0] 1 = Except.ok 1 from rfl, ok_bind]
  first
  | simp only []
  | skip
  rw [dif_neg (by omega : ¬(1 : ℕ) = 0)]
  rw [show (([2, 1, 0].set 0 1).set 1 2 : List ℕ) = [1, 2, 0] from rfl]
  rw [show (1 : ℕ) - 1 = 0 from rfl]
  rw [Bvh.partLoop]
  rw [dif_neg (by omega : ¬(0 : ℕ) < 0)]
  rw [show vget [1, 2, 0] 0 = Except.ok 1 from rfl, ok_bind, hc1, ok_bind]
  rw [if_neg (by norm_num [Vec3.comp] :
    ¬(Vec3.mk ((20 : ℚ) / 3) (1 / 3) 0).comp 0 < (5 : ℚ))]
  rw [ok_bind]
  rw [ok_bind]
  first
  | simp only []
  | skip
  first
  | rw [dif_pos trivial]
  | rw [dif_pos rfl]

/-- C4: `Bvh::new` is not panic-free. On the three-coincident-triangle
mesh every centroid `x`-coordinate `20/3` fails the `< 5` split test, so
the two-pointer partition keeps swapping without advancing `i`, and
`j -= 1` is executed at `j = 0`: a `usize` underflow (panic in debug
builds; in release the wrapped `j` makes the loop scan out of bounds). -/
theorem C4_bvh_partition_underflow :
    Bvh.new vertsC4 idxC4 = Except.error BvhPanic.underflow := by
  show Bvh.update_node_bounds treeC4 0 >>=
    (fun tree => Bvh.subdivide (idxC4.length / 3 + 1) tree 0) =
    Except.error BvhPanic.underflow
  rw [hubC4, ok_bind, Bvh.subdivide]
  rw [show vget bvhC4mid.nodes 0 = Except.ok rootC4 from rfl, ok_bind]
  first
  | simp only []
  | skip
  rw [if_neg (by decide : ¬rootC4.triangle_count ≤ 2)]
  norm_num [rootC4, Vec3.comp]
  rw [show bvhC4mid.triangle_indices = [0, 1, 2] from rfl]
  rw [hpartC4 bvhC4mid rfl rfl, error_bind]
